import Mathlib

/-
Verification of the Hybrid Retrieval & Context Assembly Engine of the
browser-history RAG application.

The development shallowly embeds the Python modules that the claims are
about:

  * src/searcher/query_processor.py  (QueryProcessor._extract_time_references)
  * src/searcher/retriever.py        (HistoryRetriever.search and helpers)
  * src/searcher/reranker.py         (SearchReranker.filter_and_rerank)
  * src/database/models.py           (HistoryModel.search_by_keywords)
  * src/llm/context_builder.py       (ContextBuilder.build_context and helpers)

Modelling conventions, used throughout:

  * Python float scores are modelled as rationals (the formulas under test
    only ever combine literals such as 0.6, 0.3, 0.5 and 0.05 linearly,
    so exact arithmetic is a faithful rendering of the intent of the code).
  * Python dictionaries holding result records are modelled by the record
    type Chunk whose fields are Option-valued: a key that is absent from a
    dictionary is a field equal to none.  Dictionary equality (used by the
    membership tests r in l of the Python code) is record equality.
  * datetime values are modelled as integer seconds; timedelta.days is the
    floor division of the difference by 86400, exactly as in CPython.
  * Strings attached to timestamps are abstracted by their observable parse
    behaviour (inductive TimeVal below): the code only ever inspects such a
    string through datetime.fromisoformat, datetime.strptime with a fixed
    format list, or truthiness, so the partition below captures every
    behaviour the embedded functions can distinguish.
  * Stateful in-place updates of dictionaries followed by sorting are
    rendered functionally; Python list.sort / sorted are stable, which the
    insertion sort sortD below reproduces, and SQL ORDER BY ... DESC is
    modelled with the same stable sort on the joined row list.
-/

namespace BrowserHist

/-! ### Character and string utilities

The Python code manipulates lowercase text with substring tests, and the
SQLite layer uses LIKE patterns of the shape percent-term-percent, which is
a case-insensitive substring test for ASCII.  Everything is defined on
List Char so that all functions reduce in the kernel. -/

/-- Digit character test, matching the regex class backslash-d for ASCII. -/
def isDigitC (c : Char) : Bool := decide ('0' ≤ c) && decide (c ≤ '9')

/-- Whitespace test, matching the regex class backslash-s for ASCII input. -/
def isSpaceC (c : Char) : Bool :=
  decide (c = ' ') || decide (c = '\t') || decide (c = '\n') || decide (c = '\r')

/-- Word-character test, matching the regex class backslash-w for ASCII. -/
def isWordC (c : Char) : Bool :=
  (decide ('a' ≤ c) && decide (c ≤ 'z')) || (decide ('A' ≤ c) && decide (c ≤ 'Z')) ||
    isDigitC c || decide (c = '_')

/-- Lowercasing of a character list; models Python str.lower for ASCII. -/
def lowerL (l : List Char) : List Char := l.map Char.toLower

/-- Lowercasing of a string; models Python str.lower for ASCII. -/
def lowerS (s : String) : String := String.mk (lowerL s.toList)

/-- Test whether the first list occurs at the head of the second. -/
def startsWithL (pat : List Char) (text : List Char) : Bool :=
  match pat, text with
  | [], _ => true
  | _ :: _, [] => false
  | a :: as, b :: bs => decide (a = b) && startsWithL as bs

/-- Test whether the first list occurs contiguously anywhere in the second;
models the Python substring operator on str. -/
def hasSubL (pat : List Char) (text : List Char) : Bool :=
  match text with
  | [] => decide (pat = [])
  | _ :: tl => startsWithL pat text || hasSubL pat tl

/-- Substring test on strings, case sensitive; models pat in text. -/
def substrB (pat : String) (text : String) : Bool := hasSubL pat.toList text.toList

/-- Case-insensitive substring test; models the SQLite expression
column LIKE percent-pat-percent under the default ASCII-insensitive
collation of LIKE. -/
def likeContains (text : String) (pat : String) : Bool :=
  hasSubL (lowerL pat.toList) (lowerL text.toList)

/-- Lexicographic comparison of character lists by code point; models both
Python string comparison and the SQLite BINARY collation used by
ORDER BY over ISO-8601 timestamp strings. -/
def lexLe (a : List Char) (b : List Char) : Bool :=
  match a, b with
  | [], _ => true
  | _ :: _, [] => false
  | x :: xs, y :: ys =>
      decide (x.toNat < y.toNat) || (decide (x.toNat = y.toNat) && lexLe xs ys)

/-- String comparison derived from lexLe. -/
def strLe (a : String) (b : String) : Bool := lexLe a.toList b.toList

theorem lexLe_total (a b : List Char) : lexLe a b = true ∨ lexLe b a = true := by
  induction a generalizing b with
  | nil => exact Or.inl rfl
  | cons x xs ih =>
      cases b with
      | nil => exact Or.inr rfl
      | cons y ys =>
          rcases Nat.lt_trichotomy x.toNat y.toNat with h | h | h
          · left; simp [lexLe, h]
          · rcases ih ys with h2 | h2
            · left; simp [lexLe, h, h2]
            · right; simp [lexLe, h.symm, h2]
          · right; simp [lexLe, h]

theorem lexLe_trans {a b c : List Char} (h1 : lexLe a b = true)
    (h2 : lexLe b c = true) : lexLe a c = true := by
  induction a generalizing b c with
  | nil => rfl
  | cons x xs ih =>
      cases b with
      | nil => simp [lexLe] at h1
      | cons y ys =>
          cases c with
          | nil => simp [lexLe] at h2
          | cons z zs =>
              simp only [lexLe, Bool.or_eq_true, Bool.and_eq_true,
                decide_eq_true_eq] at h1 h2 ⊢
              rcases h1 with h1 | ⟨h1e, h1r⟩
              · rcases h2 with h2 | ⟨h2e, h2r⟩
                · exact Or.inl (h1.trans h2)
                · exact Or.inl (h2e ▸ h1)
              · rcases h2 with h2 | ⟨h2e, h2r⟩
                · exact Or.inl (h1e ▸ h2)
                · exact Or.inr ⟨h1e.trans h2e, ih h1r h2r⟩

theorem strLe_total (a b : String) : strLe a b = true ∨ strLe b a = true :=
  lexLe_total a.toList b.toList

theorem strLe_trans {a b c : String} (h1 : strLe a b = true)
    (h2 : strLe b c = true) : strLe a c = true :=
  lexLe_trans h1 h2

/-- Splitting on whitespace runs; models Python str.split with no
arguments (used by the keyword extractors of the context builder and the
reranker). -/
def splitWsAux (l : List Char) (cur : List Char) : List (List Char) :=
  match l with
  | [] => if cur = [] then [] else [cur.reverse]
  | c :: cs =>
      if isSpaceC c then
        if cur = [] then splitWsAux cs [] else cur.reverse :: splitWsAux cs []
      else splitWsAux cs (c :: cur)

/-- Words of a string, splitting on whitespace. -/
def splitWs (s : String) : List String := (splitWsAux s.toList []).map String.mk

/-- Comma-space join; models the str.join call of the metadata annotator. -/
def joinComma : List String → String
  | [] => ""
  | [x] => x
  | x :: xs => x ++ ", " ++ joinComma xs

/-! ### Stable insertion sort

Python list.sort and sorted are stable; sorting in descending key order is
rendered by the boolean relation "may come first".  The same sort models
SQL ORDER BY ... DESC applied to the row list of a table scan. -/

/-- Insertion step of the stable sort. -/
def insOrd (le : α → α → Bool) (x : α) : List α → List α
  | [] => [x]
  | y :: ys => if le x y then x :: y :: ys else y :: insOrd le x ys

/-- Stable insertion sort placing a before b whenever le a b holds. -/
def sortD (le : α → α → Bool) : List α → List α
  | [] => []
  | x :: xs => insOrd le x (sortD le xs)

theorem insOrd_perm (le : α → α → Bool) (x : α) (l : List α) :
    (insOrd le x l).Perm (x :: l) := by
  induction l with
  | nil => simp [insOrd]
  | cons y ys ih =>
      by_cases h : le x y = true
      · simp [insOrd, h]
      · simp only [insOrd, h, if_false, Bool.not_eq_true]
        exact (List.Perm.cons y ih).trans (List.Perm.swap x y ys)

theorem sortD_perm (le : α → α → Bool) (l : List α) : (sortD le l).Perm l := by
  induction l with
  | nil => simp [sortD]
  | cons x xs ih =>
      exact ((insOrd_perm le x (sortD le xs)).trans (List.Perm.cons x ih))

theorem mem_sortD {le : α → α → Bool} {l : List α} {a : α} :
    a ∈ sortD le l ↔ a ∈ l := (sortD_perm le l).mem_iff

theorem length_sortD (le : α → α → Bool) (l : List α) :
    (sortD le l).length = l.length := (sortD_perm le l).length_eq

theorem insOrd_pairwise {le : α → α → Bool}
    (htot : ∀ a b, le a b = true ∨ le b a = true)
    (htrans : ∀ a b c, le a b = true → le b c = true → le a c = true)
    {l : List α} (hl : l.Pairwise (fun a b => le a b = true)) (x : α) :
    (insOrd le x l).Pairwise (fun a b => le a b = true) := by
  induction l with
  | nil => simp [insOrd]
  | cons y ys ih =>
      rcases List.pairwise_cons.mp hl with ⟨hy, hys⟩
      by_cases h : le x y = true
      · simp only [insOrd, h, if_true]
        refine List.pairwise_cons.mpr ⟨?_, hl⟩
        intro z hz
        rcases List.mem_cons.mp hz with hz | hz
        · subst hz; exact h
        · exact htrans x y z h (hy z hz)
      · have hyx : le y x = true := by
          rcases htot x y with h1 | h1
          · exact absurd h1 h
          · exact h1
        simp only [insOrd, h, if_false]
        refine List.pairwise_cons.mpr ⟨?_, ih hys⟩
        intro z hz
        have hz2 := (insOrd_perm le x ys).mem_iff.mp hz
        rcases List.mem_cons.mp hz2 with hz1 | hz1
        · subst hz1; exact hyx
        · exact hy z hz1

theorem sortD_pairwise {le : α → α → Bool}
    (htot : ∀ a b, le a b = true ∨ le b a = true)
    (htrans : ∀ a b c, le a b = true → le b c = true → le a c = true)
    (l : List α) : (sortD le l).Pairwise (fun a b => le a b = true) := by
  induction l with
  | nil => simp [sortD]
  | cons x xs ih => exact insOrd_pairwise htot htrans ih x

/-! ### Timestamps

TimeVal partitions the runtime values that can sit under the
last_visit_time key of a result dictionary by their observable parse
behaviour; integer parameters are seconds since the epoch. -/

/-- Observable behaviour of a last_visit_time dictionary value.

  * isoStr t : a string accepted by datetime.fromisoformat, denoting t;
  * fmtStr t : a string rejected by fromisoformat but accepted by one of
    the strptime formats tried by HistoryRetriever._filter_by_time;
  * badStr   : a string every parser rejects (this also covers the empty,
    hence falsy, string: all call sites treat the two identically);
  * nonStr   : a non-string value such as None (fromisoformat raises
    TypeError on it, and the time filter replaces it by now). -/
inductive TimeVal where
  | isoStr (t : Int)
  | fmtStr (t : Int)
  | badStr
  | nonStr
  deriving DecidableEq, Repr

/-- Clock state of a call: datetime.now() in seconds, together with the
calendar values datetime(year, month, day) and datetime(year, 1, 1) that
_get_time_cutoff computes from it. -/
structure Clock where
  secs : Int
  dayStart : Int
  yearStart : Int
  deriving DecidableEq, Repr

/-- Age in whole days; models (now - visit_time).days, which CPython
computes as the floor of the difference in seconds over 86400. -/
def ageDays (now : Int) (visit : Int) : Int := (now - visit).fdiv 86400

/-! ### Result records

Chunk models the result dictionaries that flow through the retriever, the
reranker and the context builder.  A none field is an absent key.  The
field set is the union of the keys written by the embedded code paths
(index metadata entries, keyword rows, fallback chunks and score fields);
record equality models Python dict equality on these keys. -/

structure Chunk where
  history_id : Option Int := none
  content_id : Option Int := none
  url : Option String := none
  domain : Option String := none
  title : Option String := none
  chunk_id : Option Int := none
  chunk_text : Option String := none
  last_visit_time : Option TimeVal := none
  visit_count : Option Int := none
  score : Option ℚ := none
  search_type : Option String := none
  vector_score : Option ℚ := none
  keyword_score : Option ℚ := none
  combined_score : Option ℚ := none
  rerank_score : Option ℚ := none
  freshness_score : Option ℚ := none
  final_score : Option ℚ := none
  source_type : Option String := none
  relevance_notes : Option (List String) := none
  lvt_raw : Option String := none
  deriving DecidableEq, Repr

/-
The last_visit_time key of a Python result dictionary holds one string (or
None).  The model splits that value into its parse behaviour
(last_visit_time : Option TimeVal, none meaning the key is absent) and,
where the raw text itself is consulted as a sort key by
_get_activity_summary, the raw text lvt_raw (none meaning the stored value
is None or the key is absent).
-/

/-- Stopword set shared verbatim by ContextBuilder._extract_keywords and
SearchReranker._extract_keywords. -/
def stopwords : List String :=
  ["a", "an", "the", "and", "or", "but", "in", "on", "at", "to", "for", "with",
   "about", "is", "are", "was", "were", "be", "been", "being", "have", "has",
   "had", "do", "does", "did", "i", "you", "he", "she", "it", "we", "they",
   "me", "him", "her", "us", "them", "my", "your", "his", "its", "our", "their"]

/-- Embeds the identical _extract_keywords helpers of the context builder
and the reranker: lowercase, split on whitespace, drop stopwords and words
of length at most 2. -/
def extractKeywords (text : String) : List String :=
  (splitWs (lowerS text)).filter (fun w => decide (w ∉ stopwords) && decide (2 < w.length))

/-! ### Query understanding: time-reference extraction

Embeds QueryProcessor._extract_time_references of
src/searcher/query_processor.py.  The regular expressions of the source
are implemented directly: the numeric search models
re.search of digits, whitespace, day with optional s, whitespace, ago
(leftmost match, maximal digit munch — the pattern is deterministic
because no digit is whitespace and the optional s commits greedily), and
the phrase patterns are word-boundary-delimited alternations. -/

/-- Tagged time interpretation; models the dictionaries
of shape type plus optional value returned by the query processor. -/
inductive TimeInfo where
  | today
  | yesterday
  | this_week
  | last_week
  | this_month
  | last_month
  | this_year
  | recent
  | days_ago (value : Option Int)
  deriving DecidableEq, Repr

/-- Numeric value of a digit run; models int() on the matched group. -/
def digitsVal (ds : List Char) : Nat := ds.foldl (fun n c => 10 * n + (c.toNat - 48)) 0

/-- Attempt to match the numeric days-ago pattern at the head of the list:
one or more digits, whitespace, the literal day, an optional s, whitespace,
the literal ago.  Returns the numeric group on success. -/
def matchDaysAgoAt (l : List Char) : Option Nat :=
  let ds := l.takeWhile isDigitC
  if ds = [] then none else
  let r1 := l.drop ds.length
  let sp1 := r1.takeWhile isSpaceC
  if sp1 = [] then none else
  let r2 := r1.drop sp1.length
  if startsWithL ['d', 'a', 'y'] r2 then
    let r3 := r2.drop 3
    let r4 := if startsWithL ['s'] r3 then r3.drop 1 else r3
    let sp2 := r4.takeWhile isSpaceC
    if sp2 = [] then none else
    let r5 := r4.drop sp2.length
    if startsWithL ['a', 'g', 'o'] r5 then some (digitsVal ds) else none
  else none

/-- Leftmost match of the numeric days-ago pattern; models re.search. -/
def searchDaysAgo : List Char → Option Nat
  | [] => none
  | c :: tl =>
      match matchDaysAgoAt (c :: tl) with
      | some n => some n
      | none => searchDaysAgo tl

/-- Word-boundary test for the character adjacent to a match. -/
def boundaryOk : Option Char → Bool
  | none => true
  | some c => ! isWordC c

/-- Test for a boundary-delimited occurrence of w at the head of l, with
prev the character immediately before this position. -/
def wordAtHere (w : List Char) (prev : Option Char) (l : List Char) : Bool :=
  startsWithL w l && boundaryOk prev && boundaryOk (l.drop w.length).head?

/-- Scan for a boundary-delimited occurrence of w anywhere in l. -/
def wordSearchAux (w : List Char) (prev : Option Char) (l : List Char) : Bool :=
  match l with
  | [] => wordAtHere w prev []
  | c :: tl => wordAtHere w prev l || wordSearchAux w (some c) tl

/-- Test whether w occurs in l delimited by word boundaries; models
re.search of a backslash-b delimited literal alternative. -/
def containsWordB (w : String) (l : List Char) : Bool := wordSearchAux w.toList none l

/-- Ordered phrase-pattern table of _extract_time_references; each entry is
the list of word-boundary-delimited alternatives of one regex, in the
insertion order of the Python dictionary. -/
def phraseGroups : List (List String × TimeInfo) :=
  [ (["today", "tonight", "currently"], TimeInfo.today),
    (["yesterday"], TimeInfo.yesterday),
    (["this week", "past week", "current week", "last 7 days"], TimeInfo.this_week),
    (["last week", "previous week", "1 week ago"], TimeInfo.last_week),
    (["this month", "current month", "last 30 days"], TimeInfo.this_month),
    (["last month", "previous month", "1 month ago"], TimeInfo.last_month),
    (["this year", "current year", "2025"], TimeInfo.this_year),
    (["recent", "recently", "lately", "past few days"], TimeInfo.recent) ]

/-- First phrase pattern that matches, in table order. -/
def findPhrase (l : List Char) : Option TimeInfo :=
  (phraseGroups.find? (fun g => g.1.any (fun w => containsWordB w l))).map (fun g => g.2)

/-- Implicit time-reference literals, searched without word boundaries. -/
def implicitPats : List String :=
  ["what have i been", "what did i", "what was i", "show me what i", "topics i", "websites i"]

/-- Embeds QueryProcessor._extract_time_references: the numeric days-ago
pattern is searched first and returns only when its value lies in 1..365;
otherwise the phrase table is consulted in order, then the implicit
patterns, and finally none. -/
def extractTimeReferences (query : String) : Option TimeInfo :=
  let l := lowerL query.toList
  match searchDaysAgo l with
  | some n =>
      if 1 ≤ n ∧ n ≤ 365 then some (TimeInfo.days_ago (some (n : Int)))
      else
        match findPhrase l with
        | some ti => some ti
        | none =>
            if implicitPats.any (fun p => hasSubL (lowerL p.toList) l) then some TimeInfo.recent
            else none
  | none =>
      match findPhrase l with
      | some ti => some ti
      | none =>
          if implicitPats.any (fun p => hasSubL (lowerL p.toList) l) then some TimeInfo.recent
          else none

/-- Proposition that the numeric days-ago pattern occurs somewhere in the
list with value n (not necessarily as the leftmost occurrence). -/
def occursDaysAgo (l : List Char) (n : Nat) : Prop :=
  ∃ i, matchDaysAgoAt (l.drop i) = some n

namespace Models

/-! ### Database layer: HistoryModel.search_by_keywords

Embeds src/database/models.py.  The SQLite store is modelled by the value
of the three-way join used by the primary tier and by the history table;
ORDER BY h.last_visit_time DESC is the stable descending sort by the
timestamp string under the BINARY collation, and LIKE with a
percent-wrapped pattern is the case-insensitive substring test
likeContains (the retriever already wraps terms in percents, and the extra
pair added by search_by_keywords is absorbed by LIKE semantics).  Each row
carries, next to the stored timestamp string, its TimeVal parse behaviour
lvtVal, used when rows are lifted into result dictionaries. -/

/-- Row of the join of chunks, content and history selected by the primary
tier (columns c.id, c.content_id, c.chunk_text, c.chunk_index, h.id,
h.url, h.title, h.domain, h.last_visit_time, h.visit_count; the json
metadata column is not inspected by any claim and is omitted). -/
structure JRow where
  cid : Int
  content_id : Int
  chunk_text : String
  chunk_index : Int
  history_id : Int
  url : String
  title : String
  domain : String
  last_visit_time : String
  visit_count : Int
  lvtVal : TimeVal := TimeVal.nonStr
  deriving DecidableEq, Repr

/-- Row of the history table (columns id, url, title, visit_count,
last_visit_time, domain). -/
structure HRow where
  hid : Int
  url : String
  title : String
  visit_count : Int
  last_visit_time : String
  domain : String
  lvtVal : TimeVal := TimeVal.nonStr
  deriving DecidableEq, Repr

/-- Database value: the joined chunk rows and the history table, both in
table-scan order. -/
structure DB where
  chunksJoined : List JRow
  history : List HRow

/-- Result dictionary of search_by_keywords; primary-tier entries carry
the id and content_id keys, secondary-tier entries do not. -/
structure KRes where
  id : Option Int := none
  content_id : Option Int := none
  chunk_text : String
  chunk_index : Int
  history_id : Int
  url : String
  title : String
  domain : String
  last_visit_time : String
  visit_count : Int
  lvtVal : TimeVal := TimeVal.nonStr
  deriving DecidableEq, Repr

/-- Descending stable order on the timestamp string. -/
def lvtDesc {α : Type} (key : α → String) (a b : α) : Bool := strLe (key b) (key a)

/-- Primary-tier SQL query for one pattern: filter the join on the chunk
text, sort by recency descending, truncate to the per-query limit. -/
def primaryQuery (db : DB) (pat : String) (limit : Nat) : List JRow :=
  (sortD (lvtDesc JRow.last_visit_time) (db.chunksJoined.filter (fun r => likeContains r.chunk_text pat))).take limit

/-- Lift a primary-tier row into a result dictionary. -/
def jToRes (r : JRow) : KRes :=
  { id := some r.cid, content_id := some r.content_id, chunk_text := r.chunk_text,
    chunk_index := r.chunk_index, history_id := r.history_id, url := r.url,
    title := r.title, domain := r.domain, last_visit_time := r.last_visit_time,
    visit_count := r.visit_count, lvtVal := r.lvtVal }

/-- Secondary-tier SQL query for one pattern: filter history on title or
url, sort by recency descending, truncate to the remaining budget. -/
def secondaryQuery (db : DB) (pat : String) (remaining : Nat) : List HRow :=
  (sortD (lvtDesc HRow.last_visit_time) (db.history.filter (fun h => likeContains h.title pat || likeContains h.url pat))).take remaining

/-- Lift a secondary-tier history row into a result dictionary. -/
def hToRes (h : HRow) : KRes :=
  { chunk_text := "Title: " ++ h.title ++ "\nURL: " ++ h.url, chunk_index := 0,
    history_id := h.hid, url := h.url, title := h.title, domain := h.domain,
    last_visit_time := h.last_visit_time, visit_count := h.visit_count, lvtVal := h.lvtVal }

/-- Inner row loop of the secondary tier: rows whose url was already seen
are skipped (and do not trigger the size check); fresh rows are appended
and the loop breaks as soon as the overall limit is reached. -/
def secRows (limit : Nat) : List HRow → List KRes → List String → List KRes × List String
  | [], acc, seen => (acc, seen)
  | r :: rs, acc, seen =>
      if decide (r.url ∈ seen) then secRows limit rs acc seen
      else
        let acc2 := acc ++ [hToRes r]
        let seen2 := seen ++ [r.url]
        if limit ≤ acc2.length then (acc2, seen2) else secRows limit rs acc2 seen2

/-- Outer pattern loop of the secondary tier; remaining is the per-query
budget limit - len(primary), computed once before the loop. -/
def secPatterns (db : DB) (remaining limit : Nat) :
    List String → List KRes → List String → List KRes
  | [], acc, _ => acc
  | p :: ps, acc, seen =>
      let st := secRows limit (secondaryQuery db p remaining) acc seen
      if limit ≤ st.1.length then st.1 else secPatterns db remaining limit ps st.1 st.2

/-- Embeds HistoryModel.search_by_keywords: the primary tier runs one
query per pattern and concatenates the rows (no deduplication and no
overall truncation); the secondary tier runs only when the primary tier
produced fewer than limit results, skipping urls already present; the
combined list is finally sorted by recency descending. -/
def searchByKeywords (db : DB) (patterns : List String) (limit : Nat) : List KRes :=
  if patterns = [] then [] else
  let primary := patterns.foldl (fun acc p => acc ++ (primaryQuery db p limit).map jToRes) []
  let res :=
    if primary.length < limit then
      secPatterns db (limit - primary.length) limit patterns primary
        (primary.map (fun r => r.url))
    else primary
  sortD (lvtDesc KRes.last_visit_time) res

end Models

namespace Retriever

/-! ### Hybrid retriever

Embeds the active (uncommented) class HistoryRetriever of
src/searcher/retriever.py. -/

/-- Embeds HistoryRetriever._get_time_cutoff.  Every tag produced by the
query processor maps to a defined cutoff; the Python fall-through return
of None is unreachable for the tag values the processor can emit. -/
def getTimeCutoff (clk : Clock) (ti : TimeInfo) : Option Int :=
  match ti with
  | TimeInfo.today => some clk.dayStart
  | TimeInfo.yesterday => some (clk.dayStart - 86400)
  | TimeInfo.this_week => some (clk.secs - 7 * 86400)
  | TimeInfo.last_week => some (clk.secs - 14 * 86400)
  | TimeInfo.this_month => some (clk.secs - 30 * 86400)
  | TimeInfo.last_month => some (clk.secs - 60 * 86400)
  | TimeInfo.this_year => some clk.yearStart
  | TimeInfo.recent => some (clk.secs - 14 * 86400)
  | TimeInfo.days_ago v => some (clk.secs - v.getD 7 * 86400)

/-- Per-item decision of the time filter: items without the timestamp key
are kept; parseable timestamps are compared against the cutoff; a string
no format parses, or a non-string value, is replaced by now. -/
def includeItem (clk : Clock) (cutoff : Int) (c : Chunk) : Bool :=
  match c.last_visit_time with
  | none => true
  | some (TimeVal.isoStr t) => decide (cutoff ≤ t)
  | some (TimeVal.fmtStr t) => decide (cutoff ≤ t)
  | some TimeVal.badStr => decide (cutoff ≤ clk.secs)
  | some TimeVal.nonStr => decide (cutoff ≤ clk.secs)

/-- Embeds HistoryRetriever._filter_by_time: filter by the cutoff, then,
if fewer than min(3, len(results)//2) items survive, extend with the first
min(5, len(results)//2) excluded items (list membership being dictionary
equality, as in the Python expression r not in filtered). -/
def filterByTime (clk : Clock) (results : List Chunk) (ti : TimeInfo) : List Chunk :=
  match getTimeCutoff clk ti with
  | none => results
  | some cutoff =>
      let filtered := results.filter (fun r => includeItem clk cutoff r)
      if filtered.length < min 3 (results.length / 2) then
        filtered ++ (results.filter (fun r => decide (r ∉ filtered))).take (min 5 (results.length / 2))
      else filtered

/-- Identity key of the fusion merge; models the f-string
url underscore chunk_id with the .get defaults of the source. -/
def mergeKey (c : Chunk) : String := c.url.getD "" ++ "_" ++ toString (c.chunk_id.getD 0)

/-- Field writes of _merge_results on a fresh vector result: its score
becomes the vector score, the keyword score is the zero placeholder. -/
def mkVec (r : Chunk) : Chunk :=
  { r with vector_score := some (r.score.getD 1), keyword_score := some 0 }

/-- Field writes of _merge_results on a fresh keyword result: zero vector
placeholder, its score as keyword score. -/
def mkKw (r : Chunk) : Chunk :=
  { r with vector_score := some 0, keyword_score := some (r.score.getD 1) }

/-- In-place update of _merge_results when a keyword result hits a seen
key: the keyword score is written and the entry is retagged hybrid. -/
def updHyb (s : ℚ) (m : Chunk) : Chunk :=
  { m with keyword_score := some s, search_type := some "hybrid" }

/-- Processing of one vector result by _merge_results: append it with its
vector score and a zero keyword placeholder unless its key was already
seen. -/
def addVector (acc : List Chunk) (r : Chunk) : List Chunk :=
  if decide (mergeKey r ∈ acc.map mergeKey) then acc
  else acc ++ [mkVec r]

/-- Processing of one keyword result by _merge_results: an already-seen
key updates that entry in place with the keyword score and the hybrid tag
(the guards keep merge keys pairwise distinct, so the map below touches
exactly the entry the Python index update touches); a fresh key is
appended with a zero vector placeholder. -/
def addKeyword (acc : List Chunk) (r : Chunk) : List Chunk :=
  if decide (mergeKey r ∈ acc.map mergeKey) then
    acc.map (fun m => if mergeKey m = mergeKey r then updHyb (r.score.getD 1) m else m)
  else acc ++ [mkKw r]

/-- Embeds HistoryRetriever._merge_results. -/
def mergeResults (vrs krs : List Chunk) : List Chunk :=
  krs.foldl addKeyword (vrs.foldl addVector [])

/-- Recency bonus of _rank_results: present only when fromisoformat
accepts the timestamp; 0.5 minus 0.05 per day of age, floored at zero. -/
def timeBoost (now : Int) (c : Chunk) : ℚ :=
  match c.last_visit_time with
  | some (TimeVal.isoStr t) => max 0 (1 / 2 - (ageDays now t : ℚ) * (1 / 20))
  | _ => 0

/-- Similarity conversion of _rank_results: a strictly positive distance d
maps to 1 / (1 + d); a zero or absent vector score contributes 0. -/
def vectorSim (c : Chunk) : ℚ :=
  let vs := c.vector_score.getD 0
  if 0 < vs then 1 / (1 + vs) else 0

/-- Combined score of _rank_results, with the constant-zero domain boost
of the source kept explicit. -/
def rankScore (now : Int) (c : Chunk) : ℚ :=
  let domain_boost : ℚ := 0
  vectorSim c * (3 / 5) + c.keyword_score.getD 0 * (3 / 10) + timeBoost now c + domain_boost

/-- Embeds HistoryRetriever._rank_results: write the combined score on
every item, then sort by it descending (stable). -/
def rankResults (now : Int) (results : List Chunk) : List Chunk :=
  match results with
  | [] => []
  | _ :: _ =>
      sortD (fun a b => decide (b.combined_score.getD 0 ≤ a.combined_score.getD 0))
        (results.map (fun c => { c with combined_score := some (rankScore now c) }))

/-- Embeds HistoryRetriever._keyword_search: empty term lists short-cut to
the empty list; otherwise the database results are reformatted into the
vector-result shape with constant score 1 and the keyword tag. -/
def keywordSearch (db : Models.DB) (terms : List String) (topk : Nat) : List Chunk :=
  if terms = [] then [] else
  (Models.searchByKeywords db terms topk).map (fun item =>
    { history_id := some item.history_id, url := some item.url,
      domain := some item.domain, title := some item.title,
      chunk_id := some item.chunk_index, chunk_text := some item.chunk_text,
      last_visit_time := some item.lvtVal, lvt_raw := some item.last_visit_time,
      score := some 1, search_type := some "keyword" })

/-- Loaded similarity index: search(embedding, k) yields (row, distance)
pairs.  The query embedding is fixed per call, so it is absorbed into the
function. -/
structure FI where
  searchFn : Nat → List (Int × ℚ)

/-- Outcome of the LangChain branch at the head of search: the attribute
may be absent or false, the call may raise (caught, leaving the empty
list), or it returns a result list. -/
inductive LCState where
  | absent
  | failing
  | returns (rs : List Chunk)

/-- Result list contributed by the LangChain branch. -/
def lcResults : LCState → List Chunk
  | LCState.absent => []
  | LCState.failing => []
  | LCState.returns rs => rs

/-- State of one HistoryRetriever call: the index and metadata as loaded
by _load_index (none when the files were absent), the LangChain branch
outcome, the cached result list for this query hash, and the database. -/
structure SearchEnv where
  index : Option FI
  metadata : Option (List Chunk)
  lc : LCState
  cache : Option (List Chunk)
  db : Models.DB

/-- Processed query as produced by QueryProcessor.process_query; the
embedding itself is absorbed into FI.searchFn. -/
structure QueryData where
  original_query : String
  cleaned_query : String
  key_terms : List String
  time_info : Option TimeInfo

/-- Hit-collection loop of _vector_search.  A row of -1 is skipped before
the metadata store is touched; len(None) raises when the metadata store
was never loaded.  FAISS returns -1 or a valid row number, and negative
rows other than -1 do not occur. -/
def collectHits (md : Option (List Chunk)) : List (Int × ℚ) → Except String (List Chunk)
  | [] => Except.ok []
  | (idx, dist) :: rest =>
      if idx = -1 then collectHits md rest
      else
        match md with
        | none => Except.error "TypeError: object of type NoneType has no len()"
        | some l =>
            if (l.length : Int) ≤ idx then collectHits md rest
            else
              match l.get? idx.toNat with
              | none => collectHits md rest
              | some m =>
                  (collectHits md rest).map
                    (fun tl => { m with score := some dist, search_type := some "vector" } :: tl)

/-- Embeds HistoryRetriever._vector_search.  The method reads self.index
with no None guard, so a cold start (index file absent, self.index = None)
raises AttributeError out of the method. -/
def vectorSearch (env : SearchEnv) (topk : Nat) : Except String (List Chunk) :=
  match env.index with
  | none => Except.error "AttributeError: NoneType object has no attribute search"
  | some fi => collectHits env.metadata (fi.searchFn topk)

/-- States 1-5 of HistoryRetriever.search after the cache probe: LangChain
first, vector search as fallback, keyword search, optional time filter on
both sides, fusion merge, ranking, truncation. -/
def searchMain (env : SearchEnv) (clk : Clock) (qd : QueryData) (topk : Nat) :
    Except String (List Chunk) :=
  let lcr := lcResults env.lc
  let vresE := if lcr.isEmpty then vectorSearch env (topk * 2) else Except.ok lcr
  match vresE with
  | Except.error e => Except.error e
  | Except.ok vres =>
      let kres := keywordSearch env.db qd.key_terms (topk * 2)
      let vres2 := match qd.time_info with
        | some ti => filterByTime clk vres ti
        | none => vres
      let kres2 := match qd.time_info with
        | some ti => filterByTime clk kres ti
        | none => kres
      Except.ok ((rankResults clk.secs (mergeResults vres2 kres2)).take topk)

/-- Embeds HistoryRetriever.search: a truthy cached result list is
returned as is, otherwise the pipeline runs. -/
def search (env : SearchEnv) (clk : Clock) (qd : QueryData) (topk : Nat) :
    Except String (List Chunk) :=
  match env.cache with
  | some cached => if cached.isEmpty then searchMain env clk qd topk else Except.ok cached
  | none => searchMain env clk qd topk

end Retriever

namespace Reranker

/-! ### Reranker

Embeds the active class SearchReranker of src/searcher/reranker.py.  The
query argument of filter_and_rerank may be the processed-query dictionary
or a plain string; the model takes the resolved query text directly (the
extraction at the head of the method only selects which string is used). -/

/-- State of the cross-encoder collaborator as observable by
filter_and_rerank:

  * noModel      : use_reranking is off or the model never loaded;
  * predicts f   : CrossEncoder.predict succeeds and scores the pair of
    the query and a chunk text by f;
  * predictFails : predict raises, rerank catches the exception and
    returns its input unchanged. -/
inductive ModelState where
  | noModel
  | predicts (f : String → String → ℚ)
  | predictFails

/-- Embeds SearchReranker._remove_duplicates: keep the first occurrence of
every url-chunk_id key. -/
def removeDuplicates (results : List Chunk) : List Chunk :=
  results.foldl
    (fun acc r =>
      if decide (Retriever.mergeKey r ∈ acc.map Retriever.mergeKey) then acc
      else acc ++ [r]) []

/-- Embeds the freshness tiers of SearchReranker._add_freshness_score;
only a fromisoformat-parseable timestamp scores, every other value is 0
(the falsy check and the ValueError and TypeError handler coincide on
this partition). -/
def freshnessScore (now : Int) (c : Chunk) : ℚ :=
  match c.last_visit_time with
  | some (TimeVal.isoStr t) =>
      let age := ageDays now t
      if age ≤ 1 then 1
      else if age ≤ 7 then 4 / 5
      else if age ≤ 30 then 1 / 2
      else max (1 / 10) (1 / (1 + (age : ℚ) / 30))
  | _ => 0

/-- Embeds SearchReranker._add_freshness_score over a result list. -/
def addFreshness (now : Int) (results : List Chunk) : List Chunk :=
  results.map (fun c => { c with freshness_score := some (freshnessScore now c) })

/-- Embeds SearchReranker._add_keyword_score: a falsy query leaves the
list untouched; otherwise every item receives the fraction of query
keywords occurring in its lowercased chunk text (0 when the text is
absent or empty, or when there are no keywords). -/
def addKeywordScore (results : List Chunk) (query : String) : List Chunk :=
  if query = "" then results
  else
    let keywords := extractKeywords query
    results.map (fun c =>
      let ks : ℚ :=
        match c.chunk_text with
        | some txt =>
            if txt = "" then 0
            else if keywords.isEmpty then 0
            else ((keywords.filter (fun k => substrB k (lowerS txt))).length : ℚ) / (keywords.length : ℚ)
        | none => 0
      { c with keyword_score := some ks })

/-- Embeds SearchReranker.rerank on the path where the model participates:
predict scores every pair and the list is sorted by the new score
descending.  The pair list comprehension reads chunk_text with a bare
index, so one missing text raises KeyError inside the try and the whole
call returns its input unchanged. -/
def rerankApply (f : String → String → ℚ) (query : String) (results : List Chunk) : List Chunk :=
  if results.all (fun c => c.chunk_text.isSome) then
    sortD (fun a b => decide (b.rerank_score.getD 0 ≤ a.rerank_score.getD 0))
      (results.map (fun c => { c with rerank_score := some (f query (c.chunk_text.getD "")) }))
  else results

/-- Default rerank score of 0.5 written by filter_and_rerank on items the
model did not score. -/
def fillRerankDefault (results : List Chunk) : List Chunk :=
  results.map (fun c =>
    if c.rerank_score.isNone then { c with rerank_score := some (1 / 2) } else c)

/-- Model-weighted fusion of filter_and_rerank: half rerank score, 0.3
keyword score, 0.2 freshness score, then a stable descending sort. -/
def modelFinal (results : List Chunk) : List Chunk :=
  sortD (fun a b => decide (b.final_score.getD 0 ≤ a.final_score.getD 0))
    (results.map (fun c =>
      { c with final_score := some (c.rerank_score.getD (1 / 2) * (1 / 2) +
          c.keyword_score.getD 0 * (3 / 10) + c.freshness_score.getD 0 * (1 / 5)) }))

/-- Embeds SearchReranker._basic_rank: equal halves of keyword and
freshness, then a stable descending sort. -/
def basicRank (results : List Chunk) : List Chunk :=
  sortD (fun a b => decide (b.final_score.getD 0 ≤ a.final_score.getD 0))
    (results.map (fun c =>
      { c with final_score := some (c.keyword_score.getD 0 * (1 / 2) +
          c.freshness_score.getD 0 * (1 / 2)) }))

/-- Embeds SearchReranker.filter_and_rerank.  The outer exception handler
around the model path cannot fire once rerank has caught its own errors
(the remaining statements are pure loops and a sort over floats), so it
has no arm in the model. -/
def filterAndRerank (ms : ModelState) (now : Int) (results : List Chunk) (queryText : String) :
    List Chunk :=
  match results with
  | [] => []
  | _ :: _ =>
      let fr := addKeywordScore (addFreshness now (removeDuplicates results)) queryText
      match ms with
      | ModelState.noModel => basicRank fr
      | ModelState.predicts f =>
          if 1 < fr.length then modelFinal (fillRerankDefault (rerankApply f queryText fr))
          else basicRank fr
      | ModelState.predictFails =>
          if 1 < fr.length then modelFinal (fillRerankDefault fr)
          else basicRank fr

end Reranker

namespace ContextB

/-! ### Context builder

Embeds the class ContextBuilder of src/llm/context_builder.py.  Database
rows are SQLite tuples of variable length; the collaborators (query
processor, retriever, history model) are supplied as an environment whose
calls either return a value or raise. -/

/-- Value of one database tuple slot.  Text columns are strings, numeric
columns integers, the timestamp column carries its raw text together with
its parse behaviour, and null models SQL NULL. -/
inductive Cell where
  | s (v : String)
  | i (v : Int)
  | t (raw : String) (v : TimeVal)
  | null
  deriving DecidableEq, Repr

/-- Database row: a tuple of cells, possibly shorter than expected (the
degradation the emergency path guards against). -/
abbrev Row := List Cell

/-- Rendering of a cell into an f-string interpolation. -/
def cellStr : Cell → String
  | Cell.s v => v
  | Cell.i v => toString v
  | Cell.t raw _ => raw
  | Cell.null => "None"

/-- Models the guarded access item[idx] if len(item) > idx else d for a
slot used as text. -/
def strAt (r : Row) (idx : Nat) (d : String) : String :=
  match r.get? idx with
  | some c => cellStr c
  | none => d

/-- Models item[idx] or d: a missing, null or empty slot yields the
default. -/
def strOrAt (r : Row) (idx : Nat) (d : String) : String :=
  match r.get? idx with
  | some (Cell.s v) => if v = "" then d else v
  | some Cell.null => d
  | some c => cellStr c
  | none => d

/-- Models the guarded access for a numeric slot. -/
def intAt (r : Row) (idx : Nat) (d : Int) : Int :=
  match r.get? idx with
  | some (Cell.i v) => v
  | _ => d

/-- Parse behaviour of a timestamp slot; a missing or null slot behaves
like the None value (fromisoformat raises TypeError on it). -/
def timeAt (r : Row) (idx : Nat) : TimeVal :=
  match r.get? idx with
  | some (Cell.t _ v) => v
  | _ => TimeVal.nonStr

/-- Raw text of a timestamp slot, none when the stored value is None. -/
def timeRawAt (r : Row) (idx : Nat) : Option String :=
  match r.get? idx with
  | some (Cell.t raw _) => some raw
  | _ => none

/-- Characters admissible in a netloc host part. -/
def afterSS : List Char → Option (List Char)
  | '/' :: '/' :: tl => some tl
  | _ :: tl => afterSS tl
  | [] => none

/-- Models urllib.parse.urlparse(url).netloc for the common
scheme-slash-slash-host-slash-path shape; the context builder only ever
stores the value, never inspects it. -/
def netloc (u : String) : String :=
  match afterSS u.toList with
  | some rest => String.mk (rest.takeWhile (fun c => decide (c ≠ '/')))
  | none => ""

/-- Collaborators of one ContextBuilder call; each operation either
returns or raises. -/
structure CBEnv where
  processQuery : String → Except String Retriever.QueryData
  retrieverSearch : Retriever.QueryData → Nat → Except String (List Chunk)
  recentHistory : Nat → Except String (List Row)
  domainHistory : String → Nat → Except String (List Row)

/-- Lexical cues of _is_activity_summary_query. -/
def activityTerms : List String :=
  ["what have i", "been doing", "looked at", "searched for", "browsing history",
   "activity", "visited", "browsed", "been reading", "been researching",
   "been interested in", "topics", "summary", "overview"]

/-- Embeds ContextBuilder._is_activity_summary_query. -/
def isActivityQ (q : String) : Bool :=
  activityTerms.any (fun t => hasSubL t.toList (lowerL q.toList))

/-- Attempt, at the head of the list, to match the numeric window pattern
of _extract_time_frame: one of the literals in, the, last, past, then
whitespace, digits, whitespace and a unit word.  The unit alternatives
day and days (and likewise for weeks and months) agree on the multiplier,
so matching the unit prefix suffices. -/
def timeFrameAt (l : List Char) : Option Int :=
  let tryAlt : List Char → Option Int := fun alt =>
    if startsWithL alt l then
      let r1 := l.drop alt.length
      let sp1 := r1.takeWhile isSpaceC
      if sp1 = [] then none else
      let r2 := r1.drop sp1.length
      let ds := r2.takeWhile isDigitC
      if ds = [] then none else
      let r3 := r2.drop ds.length
      let sp2 := r3.takeWhile isSpaceC
      if sp2 = [] then none else
      let r4 := r3.drop sp2.length
      let n : Int := (digitsVal ds : Int)
      if startsWithL ['d', 'a', 'y'] r4 then some n
      else if startsWithL ['w', 'e', 'e', 'k'] r4 then some (n * 7)
      else if startsWithL ['m', 'o', 'n', 't', 'h'] r4 then some (n * 30)
      else none
    else none
  match tryAlt ['i', 'n'] with
  | some n => some n
  | none =>
      match tryAlt ['t', 'h', 'e'] with
      | some n => some n
      | none =>
          match tryAlt ['l', 'a', 's', 't'] with
          | some n => some n
          | none => tryAlt ['p', 'a', 's', 't']

/-- Leftmost match of the numeric window pattern. -/
def searchTimeFrame : List Char → Option Int
  | [] => none
  | c :: tl =>
      match timeFrameAt (c :: tl) with
      | some n => some n
      | none => searchTimeFrame tl

/-- Phrase table of _extract_time_frame, in dictionary insertion order. -/
def cbTimePatterns : List (String × Int) :=
  [("today", 1), ("yesterday", 2), ("this week", 7), ("past week", 7),
   ("last week", 14), ("this month", 30), ("past month", 30), ("recent", 14),
   ("recently", 14), ("past few days", 5), ("last few days", 5)]

/-- Embeds ContextBuilder._extract_time_frame. -/
def extractTimeFrame (q : String) : Option Int :=
  let l := lowerL q.toList
  match searchTimeFrame l with
  | some n => some n
  | none =>
      match cbTimePatterns.find? (fun p => hasSubL p.1.toList l) with
      | some p => some p.2
      | none =>
          if ["recent", "lately", "been", "interested"].any (fun w => hasSubL w.toList l)
          then some 14 else none

/-- Inclusion decision of the time window in _get_activity_summary: only
truthy, fromisoformat-parseable timestamps older than the cutoff are
dropped; every parse failure keeps the row. -/
def activityKeep (cutoff : Int) (r : Row) : Bool :=
  match timeAt r 4 with
  | TimeVal.isoStr t => decide (cutoff ≤ t)
  | _ => true

/-- Chunk built from one recent-history row by _get_activity_summary. -/
def rowToActivityChunk (r : Row) : Chunk :=
  let url := strAt r 1 ""
  let title := strAt r 2 "Untitled"
  let dom := if 5 < r.length then strAt r 5 "" else if url = "" then "" else netloc url
  let vc := intAt r 3 1
  { history_id := some (intAt r 0 0), url := some url, title := some title,
    visit_count := some vc, last_visit_time := some (timeAt r 4),
    lvt_raw := timeRawAt r 4, domain := some dom,
    chunk_text := some ("Title: " ++ title ++ "\nURL: " ++ url ++ "\nDomain: " ++ dom ++
      "\nVisited: " ++ ((timeRawAt r 4).getD "None") ++ "\nVisit count: " ++ toString vc),
    source_type := some "direct_query" }

/-- Descending order on the pair of raw timestamp and visit count used by
the final sort of _get_activity_summary; a None timestamp is ordered
before every string (mixed None and string keys would raise in Python and
land that call in its handler; no claim depends on the order). -/
def pairLe (a b : Option String × Int) : Bool :=
  if a.1 = b.1 then decide (a.2 ≤ b.2)
  else
    match a.1, b.1 with
    | none, _ => true
    | some _, none => false
    | some x, some y => strLe x y

/-- Embeds ContextBuilder._get_activity_summary: fetch 50 recent rows,
drop rows older than the window, optionally narrow to keyword-matching
rows when enough of them exist, and sort by recency then visit count,
descending.  Every failure of the database call is caught and yields the
empty list. -/
def activitySummary (env : CBEnv) (clk : Clock) (days : Int) (keywords : List String) :
    List Chunk :=
  match env.recentHistory 50 with
  | Except.error _ => []
  | Except.ok rows =>
      if rows.isEmpty then []
      else
        let cutoff := clk.secs - days * 86400
        let chunks := (rows.filter (activityKeep cutoff)).map rowToActivityChunk
        let chunks2 :=
          if keywords.isEmpty then chunks
          else
            let filtered := chunks.filter (fun c =>
              keywords.any (fun k =>
                substrB (lowerS k) (lowerS (c.title.getD "" ++ " " ++ c.url.getD ""))))
            if min 5 (chunks.length / 2) ≤ filtered.length then filtered else chunks
        sortD (fun a b =>
            pairLe (b.lvt_raw, b.visit_count.getD 0) (a.lvt_raw, a.visit_count.getD 0))
          chunks2

/-- Chunk built from one row by _get_domain_specific_context. -/
def rowToDomainChunk (domain : String) (r : Row) : Chunk :=
  { history_id := some (intAt r 0 0), url := some (strAt r 1 ""),
    title := some (strAt r 2 "Untitled"), domain := some domain,
    chunk_text := some ("Title: " ++ strAt r 2 "Untitled" ++ "\nURL: " ++ strAt r 1 "" ++
      "\nVisited: " ++ strAt r 4 ""),
    last_visit_time := some (timeAt r 4), lvt_raw := timeRawAt r 4,
    source_type := some "domain_specific" }

/-- Embeds ContextBuilder._get_domain_specific_context; its handler turns
every failure into the empty list. -/
def domainSpecific (env : CBEnv) (domain : String) (limit : Nat) : List Chunk :=
  match env.domainHistory domain limit with
  | Except.error _ => []
  | Except.ok rows => rows.map (rowToDomainChunk domain)

/-- Chunk built from one row by _get_recent_chunks (rows shorter than 5
slots are skipped by the caller). -/
def rowToRecentChunk (r : Row) : Chunk :=
  { history_id := some (intAt r 0 0), url := some (strAt r 1 ""),
    title := some (strOrAt r 2 "Untitled"),
    domain := some (if 5 < r.length then strAt r 5 "" else netloc (strAt r 1 "")),
    chunk_text := some ("Title: " ++ strOrAt r 2 "Untitled" ++ "\nURL: " ++ strAt r 1 "" ++
      "\nVisited: " ++ strAt r 4 ""),
    last_visit_time := some (timeAt r 4), lvt_raw := timeRawAt r 4,
    source_type := some "recent_history" }

/-- Embeds ContextBuilder._get_recent_chunks.  The method has no handler,
so a database failure propagates to the caller. -/
def recentChunks (env : CBEnv) (limit : Nat) : Except String (List Chunk) :=
  match env.recentHistory limit with
  | Except.error e => Except.error e
  | Except.ok rows => Except.ok ((rows.filter (fun r => 5 ≤ r.length)).map rowToRecentChunk)

/-- Chunk built from one row by _get_emergency_context, degrading slot by
slot (rows shorter than 2 slots are skipped by the caller). -/
def rowToEmergencyChunk (r : Row) : Chunk :=
  { history_id := some (intAt r 0 0), url := some (strAt r 1 ""),
    title := some (strAt r 2 "Unknown"),
    domain := some (if 5 < r.length then strAt r 5 ""
      else if 1 < r.length then netloc (strAt r 1 "") else ""),
    chunk_text := some ("URL: " ++ strAt r 1 "" ++ "\nTitle: " ++ strAt r 2 "Unknown"),
    source_type := some "emergency_fallback" }

/-- Embeds ContextBuilder._get_emergency_context: most recent rows with
minimal formatting; its own handler turns any failure into the empty
list. -/
def emergencyContext (env : CBEnv) (limit : Nat) : List Chunk :=
  match env.recentHistory limit with
  | Except.error _ => []
  | Except.ok rows => (rows.filter (fun r => 2 ≤ r.length)).map rowToEmergencyChunk

/-- Embeds ContextBuilder._deduplicate_chunks: keep the first chunk per
truthy url, keep every chunk whose url is empty. -/
def dedupChunks (chunks : List Chunk) : List Chunk :=
  (chunks.foldl
    (fun (st : List Chunk × List String) c =>
      let url := c.url.getD ""
      if url ≠ "" ∧ url ∈ st.2 then st
      else (st.1 ++ [c], if url = "" then st.2 else st.2 ++ [url]))
    ([], [])).1

/-- Recency bucket note of _add_context_metadata; only a
fromisoformat-parseable timestamp produces a note. -/
def recencyNote (clk : Clock) (tv : TimeVal) : List String :=
  match tv with
  | TimeVal.isoStr t =>
      let d := ageDays clk.secs t
      if d = 0 then ["Visited today"]
      else if d = 1 then ["Visited yesterday"]
      else if d ≤ 7 then ["Visited this week"]
      else ["Visited " ++ toString d ++ " days ago"]
  | _ => []

/-- Annotation of one chunk by _add_context_metadata: a keyword-match
note, a recency note, a default source type, and the relevance_notes
key. -/
def annotateChunk (clk : Clock) (keywords : List String) (c : Chunk) : Chunk :=
  let text := lowerS (c.chunk_text.getD "")
  let matched := keywords.filter (fun k => substrB k text)
  let notes :=
    (if matched.isEmpty then [] else ["Matches keywords: " ++ joinComma matched]) ++
      (match c.last_visit_time with
       | some tv => recencyNote clk tv
       | none => [])
  { c with source_type := some (c.source_type.getD "vector_search"),
           relevance_notes := some notes }

/-- Embeds ContextBuilder._add_context_metadata. -/
def addContextMeta (clk : Clock) (chunks : List Chunk) (query : String) : List Chunk :=
  chunks.map (annotateChunk clk (extractKeywords query))

/-- Characters of the regex class for domain names. -/
def isDomC (c : Char) : Bool :=
  (decide ('a' ≤ c) && decide (c ≤ 'z')) || (decide ('A' ≤ c) && decide (c ≤ 'Z')) ||
    isDigitC c || decide (c = '.') || decide (c = '-')

/-- Alphabetic character test. -/
def isAlphaC (c : Char) : Bool :=
  (decide ('a' ≤ c) && decide (c ≤ 'z')) || (decide ('A' ≤ c) && decide (c ≤ 'Z'))

/-- Greedy split of a maximal domain-class run into the captured group of
the domain regex: the longest class prefix followed by a dot and at least
two letters, mirroring the backtracking of the greedy plus. -/
def domGroupAt (run : List Char) : Option (List Char) :=
  ((List.range run.length).filterMap (fun j =>
    if 1 ≤ j ∧ run.get? j = some '.' then
      let tail := (run.drop (j + 1)).takeWhile isAlphaC
      if 2 ≤ tail.length then some (run.take j ++ ['.'] ++ tail) else none
    else none)).getLast?

/-- Attempt to match the domain pattern of _get_fallback_context at the
head of the list: one of the literals on, about, from, at, whitespace,
then the captured domain. -/
def domainMatchAt (l : List Char) : Option String :=
  let tryAlt : List Char → Option String := fun alt =>
    if startsWithL alt l then
      let r1 := l.drop alt.length
      let sp := r1.takeWhile isSpaceC
      if sp = [] then none else
      let r2 := r1.drop sp.length
      (domGroupAt (r2.takeWhile isDomC)).map String.mk
    else none
  match tryAlt ['o', 'n'] with
  | some d => some d
  | none =>
      match tryAlt ['a', 'b', 'o', 'u', 't'] with
      | some d => some d
      | none =>
          match tryAlt ['f', 'r', 'o', 'm'] with
          | some d => some d
          | none => tryAlt ['a', 't']

/-- Leftmost match of the domain pattern. -/
def searchDomain : List Char → Option String
  | [] => none
  | c :: tl =>
      match domainMatchAt (c :: tl) with
      | some d => some d
      | none => searchDomain tl

/-- Embeds ContextBuilder._get_fallback_context.  The second argument of
the Python method receives the time_info dictionary: when that dictionary
is present, the expression time_frame or 14 passes it to
_get_activity_summary as the days argument, timedelta raises TypeError
there, and the handler of _get_activity_summary yields the empty list; only
an absent time_info reaches the 14-day window. -/
def fallbackContext (env : CBEnv) (clk : Clock) (query : String) (ti : Option TimeInfo)
    (limit : Nat) : Except String (List Chunk) :=
  if isActivityQ query then
    Except.ok ((match ti with
      | some _ => ([] : List Chunk)
      | none => activitySummary env clk 14 (extractKeywords query)).take limit)
  else
    match searchDomain (lowerL query.toList) with
    | some d => Except.ok (domainSpecific env d limit)
    | none => recentChunks env limit

/-- Dictionary building loop over domains, preserving first-occurrence
key order and per-key original order. -/
def firstKeys (l : List String) : List String :=
  l.foldl (fun acc d => if decide (d ∈ acc) then acc else acc ++ [d]) []

/-- Domain of a chunk under the .get default. -/
def chDomain (c : Chunk) : String := c.domain.getD ""

/-- Embeds the domain_groups dictionary of _ensure_diversity. -/
def domainGroups (results : List Chunk) : List (String × List Chunk) :=
  (firstKeys (results.map chDomain)).map
    (fun d => (d, results.filter (fun r => decide (chDomain r = d))))

/-- Counter-dictionary increment of domains_added. -/
def bump (counts : List (String × Nat)) (d : String) : List (String × Nat) :=
  if decide (d ∈ counts.map Prod.fst) then
    counts.map (fun p => if p.1 = d then (p.1, p.2 + 1) else p)
  else counts ++ [(d, 1)]

/-- Counter-dictionary read with default 0. -/
def getCount (counts : List (String × Nat)) (d : String) : Nat :=
  match counts.find? (fun p => decide (p.1 = d)) with
  | some p => p.2
  | none => 0

/-- One iteration of the seeding pass of _ensure_diversity: a non-empty
group contributes its best candidate and sets its counter to one. -/
def phase1Step (st : List Chunk × List (String × Nat)) (p : String × List Chunk) :
    List Chunk × List (String × Nat) :=
  match p.2 with
  | [] => st
  | c :: _ => (st.1 ++ [c], st.2 ++ [(p.1, 1)])

/-- Seeding pass of _ensure_diversity: the best candidate of every
non-empty domain group, the counter set to one per domain. -/
def phase1 (groups : List (String × List Chunk)) : List Chunk × List (String × Nat) :=
  groups.foldl phase1Step ([], [])

/-- Filling pass of _ensure_diversity: walk the ranked candidates,
skipping items already present (a skip does not reach the size check),
appending under the per-domain cap, and stopping once top_k items are
collected. -/
def phase2 (topk : Nat) : List Chunk → List Chunk → List (String × Nat) →
    List Chunk × List (String × Nat)
  | [], div, counts => (div, counts)
  | r :: rs, div, counts =>
      if decide (r ∈ div) then phase2 topk rs div counts
      else
        let cap := max 1 (topk / 5)
        let st :=
          if getCount counts (chDomain r) < cap then (div ++ [r], bump counts (chDomain r))
          else (div, counts)
        if topk ≤ st.1.length then st else phase2 topk rs st.1 st.2

/-- Backfill pass of _ensure_diversity, ignoring the cap. -/
def phase3 (topk : Nat) : List Chunk → List Chunk → List Chunk
  | [], div => div
  | r :: rs, div =>
      if decide (r ∈ div) then phase3 topk rs div
      else
        let div2 := div ++ [r]
        if topk ≤ div2.length then div2 else phase3 topk rs div2

/-- Embeds ContextBuilder._ensure_diversity. -/
def ensureDiversity (results : List Chunk) (topk : Nat) : List Chunk :=
  if results.length ≤ topk / 2 then results
  else
    let sg := sortD (fun a b => decide (b.2.length ≤ a.2.length)) (domainGroups results)
    let st := phase1 sg
    let st2 := phase2 topk results st.1 st.2
    if st2.1.length < min topk results.length then phase3 topk results st2.1
    else st2.1

/-- States 1 to 4 of ContextBuilder.build_context, before the boundary
handler: the direct summary lookup, the hybrid search, the empty-result
fallback, the diversity pass, the annotation, and the sparse-result merge
with the fallback tier. -/
def buildContextBody (env : CBEnv) (clk : Clock) (query : String) (topk : Nat) :
    Except String (List Chunk) :=
  match env.processQuery query with
  | Except.error e => Except.error e
  | Except.ok qd =>
      let direct : List Chunk :=
        if isActivityQ query ∧ qd.time_info.isSome then
          activitySummary env clk
            (match extractTimeFrame query with
             | some n => if n = 0 then 14 else n
             | none => 14)
            qd.key_terms
        else []
      if ¬ direct.isEmpty then Except.ok (addContextMeta clk (direct.take topk) query)
      else
        match env.retrieverSearch qd (topk * 2) with
        | Except.error e => Except.error e
        | Except.ok results =>
            if results.isEmpty then
              match fallbackContext env clk query qd.time_info topk with
              | Except.error e => Except.error e
              | Except.ok fb => Except.ok (addContextMeta clk fb query)
            else
              let contextChunks := addContextMeta clk ((ensureDiversity results topk).take topk) query
              if contextChunks.length < min 3 topk then
                match fallbackContext env clk query qd.time_info topk with
                | Except.error e => Except.error e
                | Except.ok fb =>
                    if fb.isEmpty then Except.ok contextChunks
                    else Except.ok ((dedupChunks (contextChunks ++ fb)).take topk)
              else Except.ok contextChunks

/-- Embeds ContextBuilder.build_context: the body runs inside a handler
whose arm returns the emergency context. -/
def buildContext (env : CBEnv) (clk : Clock) (query : String) (topk : Nat) : List Chunk :=
  match buildContextBody env clk query topk with
  | Except.ok l => l
  | Except.error _ => emergencyContext env topk

end ContextB

/-! ### Lemmas about the fusion merge -/

namespace Retriever

/-- Score updates do not change the merge key. -/
@[simp]
theorem mergeKey_mkVec (r : Chunk) : mergeKey (mkVec r) = mergeKey r := rfl

/-- Score updates do not change the merge key. -/
@[simp]
theorem mergeKey_mkKw (r : Chunk) : mergeKey (mkKw r) = mergeKey r := rfl

/-- The hybrid update does not change the merge key. -/
@[simp]
theorem mergeKey_updHyb (s : ℚ) (m : Chunk) : mergeKey (updHyb s m) = mergeKey m := rfl

theorem mem_foldl_addVector {l : List Chunk} {acc : List Chunk} {a : Chunk}
    (ha : a ∈ acc) : a ∈ l.foldl addVector acc := by
  induction l generalizing acc with
  | nil => exact ha
  | cons r rs ih =>
      apply ih
      by_cases h : mergeKey r ∈ acc.map mergeKey
      · simpa [addVector, h] using ha
      · unfold addVector
        rw [if_neg (by simpa using h)]
        exact List.mem_append_left _ ha

theorem key_mem_addVector {acc : List Chunk} {r : Chunk} {key : String} :
    key ∈ (addVector acc r).map mergeKey ↔
      key ∈ acc.map mergeKey ∨ key = mergeKey r := by
  by_cases h : mergeKey r ∈ acc.map mergeKey
  · unfold addVector
    rw [if_pos (by simpa using h)]
    constructor
    · exact Or.inl
    · rintro (hk | hk)
      · exact hk
      · exact hk ▸ h
  · unfold addVector
    rw [if_neg (by simpa using h)]
    simp

theorem key_mem_foldl_addVector {l : List Chunk} {acc : List Chunk} {key : String} :
    key ∈ (l.foldl addVector acc).map mergeKey ↔
      key ∈ acc.map mergeKey ∨ key ∈ l.map mergeKey := by
  induction l generalizing acc with
  | nil => simp
  | cons r rs ih =>
      simp only [List.foldl_cons, ih, key_mem_addVector, List.map_cons, List.mem_cons]
      tauto

theorem nodup_foldl_addVector {l : List Chunk} {acc : List Chunk}
    (h : (acc.map mergeKey).Nodup) : ((l.foldl addVector acc).map mergeKey).Nodup := by
  induction l generalizing acc with
  | nil => exact h
  | cons r rs ih =>
      apply ih
      by_cases hr : mergeKey r ∈ acc.map mergeKey
      · simpa [addVector, hr] using h
      · unfold addVector
        rw [if_neg (by simpa using hr)]
        simp only [List.map_append, List.map_cons, List.map_nil, mergeKey_mkVec]
        exact List.Nodup.append h (List.nodup_singleton _) (by
          intro x hx hxs
          rcases List.mem_singleton.mp hxs with rfl
          exact hr hx)

theorem mem_foldl_addVector_new {l : List Chunk} {acc : List Chunk} {v : Chunk}
    (hnd : (l.map mergeKey).Nodup) (hv : v ∈ l) (hnew : mergeKey v ∉ acc.map mergeKey) :
    mkVec v ∈ l.foldl addVector acc := by
  induction l generalizing acc with
  | nil => cases hv
  | cons r rs ih =>
      rcases List.mem_cons.mp hv with rfl | hv2
      · have hstep : addVector acc v = acc ++ [mkVec v] := by
          unfold addVector
          rw [if_neg (by simpa using hnew)]
        rw [List.foldl_cons, hstep]
        exact mem_foldl_addVector (by simp)
      · have hnd2 : (mergeKey r :: rs.map mergeKey).Nodup := by simpa using hnd
        have hne : mergeKey v ≠ mergeKey r := by
          intro he
          exact (List.nodup_cons.mp hnd2).1 (he ▸ List.mem_map_of_mem mergeKey hv2)
        have hnew2 : mergeKey v ∉ (addVector acc r).map mergeKey := by
          rw [key_mem_addVector]
          rintro (h | h)
          · exact hnew h
          · exact hne h
        exact ih (List.nodup_cons.mp hnd2).2 hv2 hnew2

theorem map_mergeKey_hyb_map (acc : List Chunk) (r : Chunk) :
    ((acc.map (fun m =>
      if mergeKey m = mergeKey r then updHyb (r.score.getD 1) m else m)).map mergeKey) =
      acc.map mergeKey := by
  rw [List.map_map]
  apply List.map_congr_left
  intro a _
  by_cases h : mergeKey a = mergeKey r <;> simp [h]

theorem key_mem_addKeyword {acc : List Chunk} {r : Chunk} {key : String} :
    key ∈ (addKeyword acc r).map mergeKey ↔
      key ∈ acc.map mergeKey ∨ key = mergeKey r := by
  by_cases h : mergeKey r ∈ acc.map mergeKey
  · unfold addKeyword
    rw [if_pos (by simpa using h), map_mergeKey_hyb_map]
    constructor
    · exact Or.inl
    · rintro (hk | hk)
      · exact hk
      · exact hk ▸ h
  · unfold addKeyword
    rw [if_neg (by simpa using h)]
    simp

theorem nodup_foldl_addKeyword {l : List Chunk} {acc : List Chunk}
    (h : (acc.map mergeKey).Nodup) : ((l.foldl addKeyword acc).map mergeKey).Nodup := by
  induction l generalizing acc with
  | nil => exact h
  | cons r rs ih =>
      apply ih
      by_cases hr : mergeKey r ∈ acc.map mergeKey
      · unfold addKeyword
        rw [if_pos (by simpa using hr), map_mergeKey_hyb_map]
        exact h
      · unfold addKeyword
        rw [if_neg (by simpa using hr)]
        simp only [List.map_append, List.map_cons, List.map_nil, mergeKey_mkKw]
        exact List.Nodup.append h (List.nodup_singleton _) (by
          intro x hx hxs
          rcases List.mem_singleton.mp hxs with rfl
          exact hr hx)

theorem mem_foldl_addKeyword_notin {l : List Chunk} {acc : List Chunk} {a : Chunk}
    (ha : a ∈ acc) (hkey : mergeKey a ∉ l.map mergeKey) : a ∈ l.foldl addKeyword acc := by
  induction l generalizing acc with
  | nil => exact ha
  | cons r rs ih =>
      have hne : mergeKey a ≠ mergeKey r := by
        intro he
        exact hkey (by simp [he])
      have htl : mergeKey a ∉ rs.map mergeKey := by
        intro he
        exact hkey (by simp [he])
      refine ih ?_ htl
      by_cases hr : mergeKey r ∈ acc.map mergeKey
      · unfold addKeyword
        rw [if_pos (by simpa using hr)]
        have hfix : (if mergeKey a = mergeKey r then updHyb (r.score.getD 1) a else a) = a :=
          if_neg hne
        exact hfix ▸ List.mem_map_of_mem _ ha
      · unfold addKeyword
        rw [if_neg (by simpa using hr)]
        exact List.mem_append_left _ ha

theorem mem_foldl_addKeyword_update {l : List Chunk} {acc : List Chunk} {a k : Chunk}
    (hl : (l.map mergeKey).Nodup) (ha : a ∈ acc) (hk : k ∈ l)
    (he : mergeKey a = mergeKey k) :
    updHyb (k.score.getD 1) a ∈ l.foldl addKeyword acc := by
  induction l generalizing acc with
  | nil => cases hk
  | cons r rs ih =>
      have hnd2 : (mergeKey r :: rs.map mergeKey).Nodup := by simpa using hl
      rcases List.mem_cons.mp hk with rfl | hk2
      · have hmem : mergeKey k ∈ acc.map mergeKey := he ▸ List.mem_map_of_mem _ ha
        have hstep : updHyb (k.score.getD 1) a ∈ addKeyword acc k := by
          unfold addKeyword
          rw [if_pos (by simpa using hmem)]
          have hfix : (if mergeKey a = mergeKey k then updHyb (k.score.getD 1) a else a) =
              updHyb (k.score.getD 1) a := if_pos he
          exact hfix ▸ List.mem_map_of_mem _ ha
        rw [List.foldl_cons]
        refine mem_foldl_addKeyword_notin hstep ?_
        rw [mergeKey_updHyb, he]
        exact (List.nodup_cons.mp hnd2).1
      · have hner : mergeKey a ≠ mergeKey r := by
          intro heq
          exact (List.nodup_cons.mp hnd2).1
            (heq ▸ he ▸ List.mem_map_of_mem mergeKey hk2)
        refine ih (List.nodup_cons.mp hnd2).2 ?_ hk2
        by_cases hr : mergeKey r ∈ acc.map mergeKey
        · unfold addKeyword
          rw [if_pos (by simpa using hr)]
          have hfix : (if mergeKey a = mergeKey r then updHyb (r.score.getD 1) a else a) = a :=
            if_neg hner
          exact hfix ▸ List.mem_map_of_mem _ ha
        · unfold addKeyword
          rw [if_neg (by simpa using hr)]
          exact List.mem_append_left _ ha

theorem mem_foldl_addKeyword_new {l : List Chunk} {acc : List Chunk} {k : Chunk}
    (hl : (l.map mergeKey).Nodup) (hk : k ∈ l) (hnew : mergeKey k ∉ acc.map mergeKey) :
    mkKw k ∈ l.foldl addKeyword acc := by
  induction l generalizing acc with
  | nil => cases hk
  | cons r rs ih =>
      have hnd2 : (mergeKey r :: rs.map mergeKey).Nodup := by simpa using hl
      rcases List.mem_cons.mp hk with rfl | hk2
      · have hstep : addKeyword acc k = acc ++ [mkKw k] := by
          unfold addKeyword
          rw [if_neg (by simpa using hnew)]
        rw [List.foldl_cons, hstep]
        refine mem_foldl_addKeyword_notin (by simp) ?_
        rw [mergeKey_mkKw]
        exact (List.nodup_cons.mp hnd2).1
      · have hner : mergeKey k ≠ mergeKey r := by
          intro heq
          exact (List.nodup_cons.mp hnd2).1 (heq ▸ List.mem_map_of_mem mergeKey hk2)
        have hnew2 : mergeKey k ∉ (addKeyword acc r).map mergeKey := by
          rw [key_mem_addKeyword]
          rintro (h | h)
          · exact hnew h
          · exact hner h
        exact ih (List.nodup_cons.mp hnd2).2 hk2 hnew2

end Retriever

/-- Counting lemma: in a list whose keys are pairwise distinct, exactly
one element carries the key of a member. -/
theorem countP_key_eq_one {α β : Type} [DecidableEq β] {f : α → β} {l : List α}
    (hn : (l.map f).Nodup) {a : α} (ha : a ∈ l) {key : β} (hkey : f a = key) :
    l.countP (fun m => decide (f m = key)) = 1 := by
  induction l with
  | nil => cases ha
  | cons x xs ih =>
      have hnd2 : (f x :: xs.map f).Nodup := by simpa using hn
      rcases List.mem_cons.mp ha with rfl | ha2
      · rw [List.countP_cons, List.countP_eq_zero.mpr]
        · simp [hkey]
        · intro m hm
          simp only [decide_eq_true_eq]
          intro he
          exact (List.nodup_cons.mp hnd2).1
            (hkey ▸ he ▸ List.mem_map_of_mem f hm)
      · rw [List.countP_cons, ih (List.nodup_cons.mp hnd2).2 ha2]
        have hx : ¬ (f x = key) := by
          intro he
          exact (List.nodup_cons.mp hnd2).1
            (he ▸ hkey ▸ List.mem_map_of_mem f ha2)
        simp [hx]


/-! ### Lemmas about the diversity pass -/

namespace ContextB

theorem mem_foldl_firstKeys {l : List String} {acc : List String} {x : String} :
    x ∈ l.foldl (fun acc d => if decide (d ∈ acc) then acc else acc ++ [d]) acc ↔
      x ∈ acc ∨ x ∈ l := by
  induction l generalizing acc with
  | nil => simp
  | cons d ds ih =>
      by_cases h : d ∈ acc
      · rw [List.foldl_cons, if_pos (by simpa using h), ih]
        constructor
        · rintro (hx | hx)
          · exact Or.inl hx
          · exact Or.inr (List.mem_cons_of_mem d hx)
        · rintro (hx | hx)
          · exact Or.inl hx
          · rcases List.mem_cons.mp hx with rfl | hx2
            · exact Or.inl h
            · exact Or.inr hx2
      · rw [List.foldl_cons, if_neg (by simpa using h), ih]
        simp only [List.mem_append, List.mem_singleton, List.mem_cons]
        tauto

theorem mem_firstKeys {l : List String} {x : String} : x ∈ firstKeys l ↔ x ∈ l := by
  rw [firstKeys, mem_foldl_firstKeys]
  simp

theorem nodup_foldl_firstKeys {l : List String} {acc : List String} (h : acc.Nodup) :
    (l.foldl (fun acc d => if decide (d ∈ acc) then acc else acc ++ [d]) acc).Nodup := by
  induction l generalizing acc with
  | nil => exact h
  | cons d ds ih =>
      by_cases hd : d ∈ acc
      · rw [List.foldl_cons, if_pos (by simpa using hd)]
        exact ih h
      · rw [List.foldl_cons, if_neg (by simpa using hd)]
        refine ih (List.Nodup.append h (List.nodup_singleton d) ?_)
        intro x hx hxs
        rcases List.mem_singleton.mp hxs with rfl
        exact hd hx

theorem nodup_firstKeys (l : List String) : (firstKeys l).Nodup :=
  nodup_foldl_firstKeys List.nodup_nil

theorem length_foldl_firstKeys (l : List String) (acc : List String) :
    (l.foldl (fun acc d => if decide (d ∈ acc) then acc else acc ++ [d]) acc).length ≤
      acc.length + l.length := by
  induction l generalizing acc with
  | nil => simp
  | cons d ds ih =>
      by_cases hd : d ∈ acc
      · rw [List.foldl_cons, if_pos (by simpa using hd)]
        calc _ ≤ acc.length + ds.length := ih acc
          _ ≤ acc.length + (d :: ds).length := by simp
      · rw [List.foldl_cons, if_neg (by simpa using hd)]
        calc _ ≤ (acc ++ [d]).length + ds.length := ih (acc ++ [d])
          _ = acc.length + (d :: ds).length := by simp [Nat.add_comm, Nat.add_assoc, Nat.add_left_comm]

theorem length_firstKeys_le (l : List String) : (firstKeys l).length ≤ l.length := by
  have := length_foldl_firstKeys l []
  simpa [firstKeys] using this

theorem getCount_cons (q : String × Nat) (qs : List (String × Nat)) (d : String) :
    getCount (q :: qs) d = if q.1 = d then q.2 else getCount qs d := by
  unfold getCount
  rw [List.find?]
  by_cases hq : q.1 = d
  · rw [show (decide (q.1 = d)) = true by simpa using hq]
    simp [hq]
  · rw [show (decide (q.1 = d)) = false by simpa using hq]
    simp [hq]

theorem getCount_not_mem {counts : List (String × Nat)} {d : String}
    (hm : d ∉ counts.map Prod.fst) : getCount counts d = 0 := by
  unfold getCount
  rw [List.find?_eq_none.mpr]
  intro p hp
  simp only [decide_eq_true_eq]
  intro he
  exact hm (he ▸ List.mem_map_of_mem Prod.fst hp)

theorem getCount_append_new {counts : List (String × Nat)} {d0 : String}
    {k : Nat} (h : d0 ∉ counts.map Prod.fst) (d : String) :
    getCount (counts ++ [(d0, k)]) d = if d = d0 then k else getCount counts d := by
  induction counts with
  | nil =>
      rw [List.nil_append, getCount_cons]
      by_cases hd : d = d0
      · rw [if_pos hd.symm, if_pos hd]
      · rw [if_neg (fun he => hd he.symm), if_neg hd]
  | cons p ps ih =>
      have hps : d0 ∉ ps.map Prod.fst := fun hx => h (by simp [hx])
      have hp : p.1 ≠ d0 := fun hx => h (by simp [hx])
      rw [List.cons_append, getCount_cons, getCount_cons]
      by_cases hpd : p.1 = d
      · have hdne : d ≠ d0 := fun he => hp (hpd.trans he)
        rw [if_pos hpd, if_neg hdne, if_pos hpd]
      · rw [if_neg hpd, ih hps]
        by_cases hd : d = d0
        · rw [if_pos hd, if_pos hd]
        · rw [if_neg hd, if_neg hd, if_neg hpd]

theorem map_fst_bump_mem {counts : List (String × Nat)} {d0 : String}
    (hm : d0 ∈ counts.map Prod.fst) :
    (bump counts d0).map Prod.fst = counts.map Prod.fst := by
  unfold bump
  rw [if_pos (by simpa using hm), List.map_map]
  apply List.map_congr_left
  intro p _
  by_cases hp : p.1 = d0 <;> simp [hp]

theorem bump_not_mem {counts : List (String × Nat)} {d0 : String}
    (hm : d0 ∉ counts.map Prod.fst) : bump counts d0 = counts ++ [(d0, 1)] := by
  unfold bump
  rw [if_neg (by simpa using hm)]

theorem nodup_bump {counts : List (String × Nat)} {d0 : String}
    (h : (counts.map Prod.fst).Nodup) : ((bump counts d0).map Prod.fst).Nodup := by
  by_cases hm : d0 ∈ counts.map Prod.fst
  · rw [map_fst_bump_mem hm]; exact h
  · rw [bump_not_mem hm, List.map_append]
    exact List.Nodup.append h (by simp) (by
      intro x hx hxs
      simp only [List.map_cons, List.map_nil, List.mem_singleton] at hxs
      subst hxs
      exact hm hx)

theorem getCount_map_bump_fn {d0 : String} (counts : List (String × Nat))
    (h : (counts.map Prod.fst).Nodup) (d : String) :
    getCount (counts.map (fun q => if q.1 = d0 then (q.1, q.2 + 1) else q)) d =
      if d = d0 ∧ d0 ∈ counts.map Prod.fst then getCount counts d + 1
      else getCount counts d := by
  induction counts with
  | nil => simp
  | cons p ps ih =>
      have hnd2 : (p.1 :: ps.map Prod.fst).Nodup := by simpa using h
      have ihps := ih (List.nodup_cons.mp hnd2).2
      by_cases hp : p.1 = d0
      · have hd0ps : d0 ∉ ps.map Prod.fst := hp ▸ (List.nodup_cons.mp hnd2).1
        by_cases hd : d = p.1
        · have hcond : d = d0 ∧ d0 ∈ (p :: ps).map Prod.fst :=
            ⟨hd.trans hp, by
              rw [List.map_cons, ← hp]
              exact List.mem_cons_self _ _⟩
          rw [List.map_cons, if_pos hp, getCount_cons, if_pos hd.symm,
            if_pos hcond, getCount_cons, if_pos hd.symm]
        · have hnc : ¬ (d = d0 ∧ d0 ∈ (p :: ps).map Prod.fst) :=
            fun hc => hd (hc.1.trans hp.symm)
          rw [List.map_cons, if_pos hp, getCount_cons,
            if_neg (fun he => hd he.symm), ihps,
            if_neg (fun hc => hd0ps hc.2), if_neg hnc, getCount_cons,
            if_neg (fun he => hd he.symm)]
      · by_cases hpd : p.1 = d
        · have hnc : ¬ (d = d0 ∧ d0 ∈ (p :: ps).map Prod.fst) :=
            fun hc => hp (hpd.trans hc.1)
          rw [List.map_cons, if_neg hp, getCount_cons, if_pos hpd, if_neg hnc,
            getCount_cons, if_pos hpd]
        · by_cases hc : d = d0 ∧ d0 ∈ ps.map Prod.fst
          · have hc2 : d = d0 ∧ d0 ∈ (p :: ps).map Prod.fst :=
              ⟨hc.1, by
                rw [List.map_cons]
                exact List.mem_cons_of_mem _ hc.2⟩
            rw [List.map_cons, if_neg hp, getCount_cons, if_neg hpd, ihps,
              if_pos hc, if_pos hc2, getCount_cons, if_neg hpd]
          · have hc2 : ¬ (d = d0 ∧ d0 ∈ (p :: ps).map Prod.fst) := by
              rintro ⟨rfl, hmem⟩
              rw [List.map_cons] at hmem
              rcases List.mem_cons.mp hmem with he | he
              · exact hp he.symm
              · exact hc ⟨rfl, he⟩
            rw [List.map_cons, if_neg hp, getCount_cons, if_neg hpd, ihps,
              if_neg hc, if_neg hc2, getCount_cons, if_neg hpd]

theorem getCount_bump {counts : List (String × Nat)} {d0 : String}
    (h : (counts.map Prod.fst).Nodup) (d : String) :
    getCount (bump counts d0) d =
      if d = d0 then getCount counts d0 + 1 else getCount counts d := by
  by_cases hm : d0 ∈ counts.map Prod.fst
  · unfold bump
    rw [if_pos (by simpa using hm)]
    rw [getCount_map_bump_fn counts h d]
    by_cases hd : d = d0
    · rw [if_pos ⟨hd, hm⟩, if_pos hd, hd]
    · rw [if_neg (fun hc => hd hc.1), if_neg hd]
  · rw [bump_not_mem hm, getCount_append_new hm]
    by_cases hd : d = d0
    · rw [if_pos hd, if_pos hd, getCount_not_mem hm]
    · rw [if_neg hd, if_neg hd]

theorem phase1_fold_length_all (groups : List (String × List Chunk))
    (st : List Chunk × List (String × Nat)) (hne : ∀ p ∈ groups, p.2 ≠ []) :
    (groups.foldl phase1Step st).1.length = st.1.length + groups.length := by
  induction groups generalizing st with
  | nil => simp
  | cons p ps ih =>
      cases hg : p.2 with
      | nil => exact absurd hg (hne p (List.mem_cons_self _ _))
      | cons c cs =>
          rw [List.foldl_cons]
          have hstep : phase1Step st p = (st.1 ++ [c], st.2 ++ [(p.1, 1)]) := by
            unfold phase1Step
            rw [hg]
          rw [hstep, ih _ (fun q hq => hne q (List.mem_cons_of_mem _ hq))]
          simp only [List.length_append, List.length_cons, List.length_nil]
          omega

theorem phase1_fold_inv (groups : List (String × List Chunk))
    (st : List Chunk × List (String × Nat))
    (hnd : (st.2.map Prod.fst ++ groups.map Prod.fst).Nodup)
    (hgrp : ∀ p ∈ groups, ∀ x ∈ p.2, chDomain x = p.1)
    (hinv : ∀ d, st.1.countP (fun r => decide (chDomain r = d)) = getCount st.2 d)
    (hle : ∀ d, getCount st.2 d ≤ 1) :
    (((groups.foldl phase1Step st).2.map Prod.fst).Nodup) ∧
      (∀ d, (groups.foldl phase1Step st).1.countP (fun r => decide (chDomain r = d)) =
        getCount (groups.foldl phase1Step st).2 d) ∧
      (∀ d, getCount (groups.foldl phase1Step st).2 d ≤ 1) := by
  induction groups generalizing st with
  | nil =>
      refine ⟨?_, hinv, hle⟩
      simpa using hnd
  | cons p ps ih =>
      have hndtl : (st.2.map Prod.fst ++ ps.map Prod.fst).Nodup := by
        refine List.Nodup.sublist ?_ hnd
        exact List.Sublist.append (List.Sublist.refl _)
          (List.Sublist.cons _ (List.Sublist.refl _))
      cases hg : p.2 with
      | nil =>
          rw [List.foldl_cons]
          have hstep : phase1Step st p = st := by
            unfold phase1Step
            rw [hg]
          rw [hstep]
          exact ih st hndtl (fun q hq => hgrp q (List.mem_cons_of_mem _ hq)) hinv hle
      | cons c cs =>
          rw [List.foldl_cons]
          have hstep : phase1Step st p = (st.1 ++ [c], st.2 ++ [(p.1, 1)]) := by
            unfold phase1Step
            rw [hg]
          rw [hstep]
          have hp1new : p.1 ∉ st.2.map Prod.fst := by
            intro hmem
            exact (List.disjoint_of_nodup_append hnd) hmem (by simp)
          have hdomc : chDomain c = p.1 :=
            hgrp p (List.mem_cons_self _ _) c (by rw [hg]; exact List.mem_cons_self _ _)
          have hnd2 : ((st.2 ++ [(p.1, 1)]).map Prod.fst ++ ps.map Prod.fst).Nodup := by
            rw [List.map_append]
            simpa [List.append_assoc] using hnd
          have hinv2 : ∀ d, (st.1 ++ [c]).countP (fun r => decide (chDomain r = d)) =
              getCount (st.2 ++ [(p.1, 1)]) d := by
            intro d
            rw [List.countP_append, getCount_append_new hp1new]
            by_cases hd : d = p.1
            · rw [if_pos hd]
              have h0 : getCount st.2 d = 0 := by
                rw [hd]
                exact getCount_not_mem hp1new
              have hc1 : ([c].countP (fun r => decide (chDomain r = d))) = 1 := by
                have hcd : chDomain c = d := by rw [hdomc, hd]
                simp [hcd]
              rw [hinv d, h0, hc1]
            · rw [if_neg hd, hinv d]
              have hne2 : chDomain c ≠ d := by
                rw [hdomc]
                exact fun he => hd he.symm
              have hc0 : ([c].countP (fun r => decide (chDomain r = d))) = 0 := by
                simp [hne2]
              rw [hc0]
              omega
          have hle2 : ∀ d, getCount (st.2 ++ [(p.1, 1)]) d ≤ 1 := by
            intro d
            rw [getCount_append_new hp1new]
            by_cases hd : d = p.1
            · rw [if_pos hd]
            · rw [if_neg hd]
              exact hle d
          exact ih _ hnd2 (fun q hq => hgrp q (List.mem_cons_of_mem _ hq)) hinv2 hle2

theorem phase2_cap (topk : Nat) (l : List Chunk) (div : List Chunk)
    (counts : List (String × Nat))
    (hnd : (counts.map Prod.fst).Nodup)
    (hinv : ∀ d, div.countP (fun r => decide (chDomain r = d)) = getCount counts d)
    (hle : ∀ d, getCount counts d ≤ max 1 (topk / 5)) :
    ∀ d, (phase2 topk l div counts).1.countP (fun r => decide (chDomain r = d)) ≤
      max 1 (topk / 5) := by
  induction l generalizing div counts with
  | nil =>
      intro d
      rw [show phase2 topk [] div counts = (div, counts) from rfl, hinv d]
      exact hle d
  | cons r rs ih =>
      by_cases hmem : r ∈ div
      · have hstep : phase2 topk (r :: rs) div counts = phase2 topk rs div counts := by
          rw [phase2, if_pos (by simpa using hmem)]
        rw [hstep]
        exact ih div counts hnd hinv hle
      · by_cases hcap : getCount counts (chDomain r) < max 1 (topk / 5)
        · have hinv2 : ∀ d, (div ++ [r]).countP (fun x => decide (chDomain x = d)) =
              getCount (bump counts (chDomain r)) d := by
            intro d
            rw [List.countP_append, getCount_bump hnd, hinv d]
            by_cases hd : d = chDomain r
            · have hc1 : ([r].countP (fun x => decide (chDomain x = d))) = 1 := by
                simp [hd.symm]
              rw [if_pos hd, hc1, hd]
            · rw [if_neg hd]
              have hne2 : chDomain r ≠ d := fun he => hd he.symm
              have hc0 : ([r].countP (fun x => decide (chDomain x = d))) = 0 := by
                simp [hne2]
              rw [hc0]
              omega
          have hle2 : ∀ d, getCount (bump counts (chDomain r)) d ≤ max 1 (topk / 5) := by
            intro d
            rw [getCount_bump hnd]
            by_cases hd : d = chDomain r
            · rw [if_pos hd]
              omega
            · rw [if_neg hd]
              exact hle d
          have hnd2 : ((bump counts (chDomain r)).map Prod.fst).Nodup := nodup_bump hnd
          have hstep : phase2 topk (r :: rs) div counts =
              (if topk ≤ (div ++ [r]).length then (div ++ [r], bump counts (chDomain r))
               else phase2 topk rs (div ++ [r]) (bump counts (chDomain r))) := by
            rw [phase2, if_neg (by simpa using hmem)]
            simp only []
            rw [if_pos hcap]
          rw [hstep]
          by_cases hstop : topk ≤ (div ++ [r]).length
          · rw [if_pos hstop]
            intro d
            rw [hinv2 d]
            exact hle2 d
          · rw [if_neg hstop]
            exact ih _ _ hnd2 hinv2 hle2
        · have hstep : phase2 topk (r :: rs) div counts =
              (if topk ≤ div.length then (div, counts)
               else phase2 topk rs div counts) := by
            rw [phase2, if_neg (by simpa using hmem)]
            simp only []
            rw [if_neg hcap]
          rw [hstep]
          by_cases hstop : topk ≤ div.length
          · rw [if_pos hstop]
            intro d
            rw [hinv d]
            exact hle d
          · rw [if_neg hstop]
            exact ih div counts hnd hinv hle

theorem phase2_len_mono (topk : Nat) (l : List Chunk) (div : List Chunk)
    (counts : List (String × Nat)) :
    div.length ≤ (phase2 topk l div counts).1.length := by
  induction l generalizing div counts with
  | nil => exact Nat.le_refl _
  | cons r rs ih =>
      by_cases hmem : r ∈ div
      · rw [phase2, if_pos (by simpa using hmem)]
        exact ih div counts
      · rw [phase2, if_neg (by simpa using hmem)]
        simp only []
        by_cases hcap : getCount counts (chDomain r) < max 1 (topk / 5)
        · rw [if_pos hcap]
          by_cases hstop : topk ≤ (div ++ [r]).length
          · rw [if_pos hstop]
            simp
          · rw [if_neg hstop]
            calc div.length ≤ (div ++ [r]).length := by simp
              _ ≤ _ := ih _ _
        · rw [if_neg hcap]
          by_cases hstop : topk ≤ div.length
          · rw [if_pos hstop]
          · rw [if_neg hstop]
            exact ih div counts

theorem ensureDiversity_cap (results : List Chunk) (topk : Nat) (h1 : 1 ≤ topk)
    (hdom : topk ≤ (firstKeys (results.map chDomain)).length) :
    ∀ d, (ensureDiversity results topk).countP (fun r => decide (chDomain r = d)) ≤
      max 1 (topk / 5) := by
  have hDn : (firstKeys (results.map chDomain)).length ≤ results.length := by
    have := length_firstKeys_le (results.map chDomain)
    simpa using this
  have hguard : ¬ (results.length ≤ topk / 2) := by
    have : topk / 2 < topk := Nat.div_lt_self (by omega) (by norm_num)
    omega
  have hkeysdg : (domainGroups results).map Prod.fst =
      firstKeys (results.map chDomain) := by
    unfold domainGroups
    rw [List.map_map]
    have hid : (firstKeys (results.map chDomain)).map
        (Prod.fst ∘ fun d => (d, results.filter (fun r => decide (chDomain r = d)))) =
        (firstKeys (results.map chDomain)).map id :=
      List.map_congr_left (fun d _ => rfl)
    rw [hid, List.map_id]
  have hsgperm := sortD_perm
    (fun (a b : String × List Chunk) => decide (b.2.length ≤ a.2.length))
    (domainGroups results)
  have hsgkeys : ((sortD (fun (a b : String × List Chunk) =>
      decide (b.2.length ≤ a.2.length)) (domainGroups results)).map Prod.fst).Nodup := by
    rw [(hsgperm.map Prod.fst).nodup_iff, hkeysdg]
    exact nodup_firstKeys _
  have hsgmem : ∀ p ∈ sortD (fun (a b : String × List Chunk) =>
      decide (b.2.length ≤ a.2.length)) (domainGroups results),
      p ∈ domainGroups results := fun p hp => mem_sortD.mp hp
  have hsggrp : ∀ p ∈ sortD (fun (a b : String × List Chunk) =>
      decide (b.2.length ≤ a.2.length)) (domainGroups results),
      ∀ x ∈ p.2, chDomain x = p.1 := by
    intro p hp x hx
    rcases List.mem_map.mp (hsgmem p hp) with ⟨dk, _, rfl⟩
    have := List.mem_filter.mp hx
    simpa using this.2
  have hsgne : ∀ p ∈ sortD (fun (a b : String × List Chunk) =>
      decide (b.2.length ≤ a.2.length)) (domainGroups results), p.2 ≠ [] := by
    intro p hp
    rcases List.mem_map.mp (hsgmem p hp) with ⟨dk, hdk, rfl⟩
    have hdk2 : dk ∈ results.map chDomain := mem_firstKeys.mp hdk
    rcases List.mem_map.mp hdk2 with ⟨r, hr, rfl⟩
    intro hempty
    have hmem2 : r ∈ results.filter (fun x => decide (chDomain x = chDomain r)) :=
      List.mem_filter.mpr ⟨hr, by simp⟩
    have hempty2 : results.filter (fun x => decide (chDomain x = chDomain r)) = [] := hempty
    rw [hempty2] at hmem2
    cases hmem2
  have hsglen : (sortD (fun (a b : String × List Chunk) =>
      decide (b.2.length ≤ a.2.length)) (domainGroups results)).length =
      (firstKeys (results.map chDomain)).length := by
    rw [hsgperm.length_eq, ← hkeysdg, List.length_map]
  have hp1 := phase1_fold_inv (sortD (fun (a b : String × List Chunk) =>
      decide (b.2.length ≤ a.2.length)) (domainGroups results)) ([], [])
    (by simpa using hsgkeys) hsggrp (by intro d; rfl) (by intro d; simp [getCount])
  have hp1len := phase1_fold_length_all (sortD (fun (a b : String × List Chunk) =>
      decide (b.2.length ≤ a.2.length)) (domainGroups results)) ([], []) hsgne
  intro d
  unfold ensureDiversity
  rw [if_neg hguard]
  have hskip : ¬ ((phase2 topk results (phase1 (sortD (fun (a b : String × List Chunk) =>
      decide (b.2.length ≤ a.2.length)) (domainGroups results))).1
      (phase1 (sortD (fun (a b : String × List Chunk) =>
      decide (b.2.length ≤ a.2.length)) (domainGroups results))).2).1.length <
      min topk results.length) := by
    have hm := phase2_len_mono topk results
      (phase1 (sortD (fun (a b : String × List Chunk) =>
        decide (b.2.length ≤ a.2.length)) (domainGroups results))).1
      (phase1 (sortD (fun (a b : String × List Chunk) =>
        decide (b.2.length ≤ a.2.length)) (domainGroups results))).2
    have hlen1 : (phase1 (sortD (fun (a b : String × List Chunk) =>
        decide (b.2.length ≤ a.2.length)) (domainGroups results))).1.length =
        (firstKeys (results.map chDomain)).length := by
      unfold phase1
      rw [hp1len]
      simpa using hsglen
    have hmin : min topk results.length ≤ topk := Nat.min_le_left _ _
    omega
  rw [if_neg hskip]
  exact phase2_cap topk results _ _ hp1.1 hp1.2.1
    (fun d2 => le_trans (hp1.2.2 d2) (le_max_left _ _)) d

/-- The deduplication fold only rearranges chunks drawn from its
accumulator and its input. -/
theorem dedup_fold_subset (l : List Chunk) (st : List Chunk × List String) :
    ∀ c ∈ (l.foldl
      (fun (st : List Chunk × List String) c =>
        let url := c.url.getD ""
        if url ≠ "" ∧ url ∈ st.2 then st
        else (st.1 ++ [c], if url = "" then st.2 else st.2 ++ [url])) st).1,
      c ∈ st.1 ∨ c ∈ l := by
  induction l generalizing st with
  | nil => exact fun c hc => Or.inl hc
  | cons a tl ih =>
      intro c hc
      rw [List.foldl_cons] at hc
      rcases ih _ c hc with h | h
      · simp only [] at h
        by_cases hcond : a.url.getD "" ≠ "" ∧ a.url.getD "" ∈ st.2
        · rw [if_pos hcond] at h
          exact Or.inl h
        · rw [if_neg hcond] at h
          simp only [List.mem_append, List.mem_singleton] at h
          rcases h with h | h
          · exact Or.inl h
          · exact Or.inr (by simp [h])
      · exact Or.inr (List.mem_cons_of_mem _ h)

/-- Every chunk of the deduplicated list occurs in the input. -/
theorem dedupChunks_subset {l : List Chunk} {c : Chunk} (hc : c ∈ dedupChunks l) : c ∈ l := by
  unfold dedupChunks at hc
  rcases dedup_fold_subset l ([], []) c hc with h | h
  · simp at h
  · exact h

/-- Every chunk leaving _add_context_metadata carries the relevance_notes
key and the source_type key. -/
theorem addContextMeta_fields {clk : Clock} {l : List Chunk} {q : String} {c : Chunk}
    (hc : c ∈ addContextMeta clk l q) :
    c.relevance_notes.isSome = true ∧ c.source_type.isSome = true := by
  unfold addContextMeta at hc
  rcases List.mem_map.mp hc with ⟨d, _, rfl⟩
  exact ⟨rfl, rfl⟩

/-- Every emergency chunk carries the five base keys with source type
emergency_fallback, and no relevance_notes key. -/
theorem emergencyContext_fields {env : CBEnv} {n : Nat} {c : Chunk}
    (hc : c ∈ emergencyContext env n) :
    c.url.isSome = true ∧ c.title.isSome = true ∧ c.domain.isSome = true ∧
      c.chunk_text.isSome = true ∧ c.source_type = some "emergency_fallback" ∧
      c.relevance_notes = none := by
  unfold emergencyContext at hc
  revert hc
  cases env.recentHistory n with
  | error e => exact fun hc => absurd hc (List.not_mem_nil c)
  | ok rows =>
      intro hc
      rcases List.mem_map.mp hc with ⟨r, _, rfl⟩
      exact ⟨rfl, rfl, rfl, rfl, rfl, rfl⟩

/-- Every chunk of an activity summary was built by rowToActivityChunk. -/
theorem activitySummary_shape {env : CBEnv} {clk : Clock} {days : Int} {ks : List String}
    {c : Chunk} (hc : c ∈ activitySummary env clk days ks) :
    ∃ r, c = rowToActivityChunk r := by
  unfold activitySummary at hc
  split at hc
  · exact absurd hc (List.not_mem_nil c)
  · split at hc
    · exact absurd hc (List.not_mem_nil c)
    · simp only [] at hc
      have hc2 := mem_sortD.mp hc
      split at hc2
      · rcases List.mem_map.mp hc2 with ⟨r, _, hr⟩
        exact ⟨r, hr.symm⟩
      · split at hc2
        · rcases List.mem_map.mp (List.mem_filter.mp hc2).1 with ⟨r, _, hr⟩
          exact ⟨r, hr.symm⟩
        · rcases List.mem_map.mp hc2 with ⟨r, _, hr⟩
          exact ⟨r, hr.symm⟩

/-- Every chunk produced by the fallback tier carries the five base keys
and a source type, but no relevance_notes key: none of the three fallback
constructors writes it. -/
theorem fallbackContext_fields {env : CBEnv} {clk : Clock} {q : String} {ti : Option TimeInfo}
    {limit : Nat} {fb : List Chunk} (h : fallbackContext env clk q ti limit = Except.ok fb)
    {c : Chunk} (hc : c ∈ fb) :
    c.url.isSome = true ∧ c.title.isSome = true ∧ c.domain.isSome = true ∧
      c.chunk_text.isSome = true ∧ c.source_type.isSome = true ∧
      c.relevance_notes = none := by
  unfold fallbackContext at h
  by_cases ha : isActivityQ q = true
  · rw [if_pos ha] at h
    obtain rfl := Except.ok.inj h
    have hc2 := List.take_subset _ _ hc
    revert hc2
    cases ti with
    | some t => exact fun hc2 => absurd hc2 (List.not_mem_nil c)
    | none =>
        intro hc2
        rcases activitySummary_shape hc2 with ⟨r, rfl⟩
        exact ⟨rfl, rfl, rfl, rfl, rfl, rfl⟩
  · rw [if_neg ha] at h
    revert h
    cases searchDomain (lowerL q.toList) with
    | some d =>
        intro h
        obtain rfl := Except.ok.inj h
        unfold domainSpecific at hc
        revert hc
        cases env.domainHistory d limit with
        | error e => exact fun hc => absurd hc (List.not_mem_nil c)
        | ok rows =>
            intro hc
            rcases List.mem_map.mp hc with ⟨r, _, rfl⟩
            exact ⟨rfl, rfl, rfl, rfl, rfl, rfl⟩
    | none =>
        intro h
        unfold recentChunks at h
        revert h
        cases env.recentHistory limit with
        | error e => exact fun h => absurd h (by simp)
        | ok rows =>
            intro h
            obtain rfl := Except.ok.inj h
            rcases List.mem_map.mp hc with ⟨r, _, rfl⟩
            exact ⟨rfl, rfl, rfl, rfl, rfl, rfl⟩

/-- Path analysis of the body of build_context: every returned chunk is
either annotated by _add_context_metadata or taken unannotated from the
fallback tier (the sparse-result merge of step 6 appends fallback chunks
without running them through _add_context_metadata). -/
theorem buildContextBody_mem {env : CBEnv} {clk : Clock} {query : String} {topk : Nat}
    {l : List Chunk} (h : buildContextBody env clk query topk = Except.ok l) {c : Chunk}
    (hc : c ∈ l) :
    (c.relevance_notes.isSome = true ∧ c.source_type.isSome = true) ∨
      ∃ ti fb, fallbackContext env clk query ti topk = Except.ok fb ∧ c ∈ fb := by
  unfold buildContextBody at h
  revert h
  cases env.processQuery query with
  | error e => exact fun h => absurd h (by simp)
  | ok qd =>
      intro h
      simp only [] at h
      revert h
      generalize (if isActivityQ query = true ∧ qd.time_info.isSome = true then
          activitySummary env clk
            (match extractTimeFrame query with
             | some n => if n = 0 then 14 else n
             | none => 14) qd.key_terms
        else []) = D
      cases hrs : env.retrieverSearch qd (topk * 2) with
      | error e =>
          intro h
          simp only [] at h
          split at h
          · obtain rfl := Except.ok.inj h
            exact Or.inl ⟨(addContextMeta_fields hc).1, (addContextMeta_fields hc).2⟩
          · exact absurd h (by simp)
      | ok results =>
          intro h
          simp only [] at h
          revert h
          cases hfb : fallbackContext env clk query qd.time_info topk with
          | error e =>
              intro h
              simp only [] at h
              split at h
              · obtain rfl := Except.ok.inj h
                exact Or.inl ⟨(addContextMeta_fields hc).1, (addContextMeta_fields hc).2⟩
              · split at h
                · exact absurd h (by simp)
                · split at h
                  · exact absurd h (by simp)
                  · obtain rfl := Except.ok.inj h
                    exact Or.inl ⟨(addContextMeta_fields hc).1, (addContextMeta_fields hc).2⟩
          | ok fb =>
              intro h
              simp only [] at h
              split at h
              · obtain rfl := Except.ok.inj h
                exact Or.inl ⟨(addContextMeta_fields hc).1, (addContextMeta_fields hc).2⟩
              · split at h
                · obtain rfl := Except.ok.inj h
                  exact Or.inl ⟨(addContextMeta_fields hc).1, (addContextMeta_fields hc).2⟩
                · split at h
                  · split at h
                    · obtain rfl := Except.ok.inj h
                      exact Or.inl ⟨(addContextMeta_fields hc).1, (addContextMeta_fields hc).2⟩
                    · obtain rfl := Except.ok.inj h
                      have hc2 := dedupChunks_subset (List.take_subset _ _ hc)
                      rcases List.mem_append.mp hc2 with h2 | h2
                      · exact Or.inl ⟨(addContextMeta_fields h2).1, (addContextMeta_fields h2).2⟩
                      · exact Or.inr ⟨qd.time_info, fb, hfb, h2⟩
                  · obtain rfl := Except.ok.inj h
                    exact Or.inl ⟨(addContextMeta_fields hc).1, (addContextMeta_fields hc).2⟩

end ContextB

/-! ### Lemmas about the reranker -/

namespace Reranker

theorem basicRank_final {l : List Chunk} {c : Chunk} (hc : c ∈ basicRank l) :
    c.final_score = some (c.keyword_score.getD 0 * (1 / 2) +
      c.freshness_score.getD 0 * (1 / 2)) := by
  rcases List.mem_map.mp (mem_sortD.mp hc) with ⟨a, _, rfl⟩
  rfl

theorem modelFinal_final {l : List Chunk} {c : Chunk} (hc : c ∈ modelFinal l) :
    c.final_score = some (c.rerank_score.getD (1 / 2) * (1 / 2) +
      c.keyword_score.getD 0 * (3 / 10) + c.freshness_score.getD 0 * (1 / 5)) := by
  rcases List.mem_map.mp (mem_sortD.mp hc) with ⟨a, _, rfl⟩
  rfl

theorem addFreshness_length (now : Int) (l : List Chunk) :
    (addFreshness now l).length = l.length := by
  unfold addFreshness
  rw [List.length_map]

theorem addKeywordScore_length (l : List Chunk) (q : String) :
    (addKeywordScore l q).length = l.length := by
  unfold addKeywordScore
  by_cases hq : q = ""
  · rw [if_pos hq]
  · rw [if_neg hq, List.length_map]

theorem rerankApply_length (f : String → String → ℚ) (q : String) (l : List Chunk) :
    (rerankApply f q l).length = l.length := by
  unfold rerankApply
  by_cases hall : l.all (fun c => c.chunk_text.isSome)
  · rw [if_pos hall, length_sortD, List.length_map]
  · rw [if_neg hall]

theorem fillRerankDefault_length (l : List Chunk) :
    (fillRerankDefault l).length = l.length := by
  unfold fillRerankDefault
  rw [List.length_map]

theorem basicRank_length (l : List Chunk) : (basicRank l).length = l.length := by
  unfold basicRank
  rw [length_sortD, List.length_map]

theorem modelFinal_length (l : List Chunk) : (modelFinal l).length = l.length := by
  unfold modelFinal
  rw [length_sortD, List.length_map]

theorem fr_length (now : Int) (results : List Chunk) (q : String) :
    (addKeywordScore (addFreshness now (removeDuplicates results)) q).length =
      (removeDuplicates results).length := by
  rw [addKeywordScore_length, addFreshness_length]

theorem filterAndRerank_length (ms : ModelState) (now : Int) (results : List Chunk)
    (q : String) :
    (filterAndRerank ms now results q).length = (removeDuplicates results).length := by
  cases results with
  | nil => rfl
  | cons x xs =>
      cases ms with
      | noModel =>
          show (basicRank _).length = _
          rw [basicRank_length, fr_length]
      | predicts f =>
          show (if 1 < (addKeywordScore (addFreshness now (removeDuplicates (x :: xs))) q).length
              then modelFinal (fillRerankDefault (rerankApply f q
                (addKeywordScore (addFreshness now (removeDuplicates (x :: xs))) q)))
              else basicRank (addKeywordScore (addFreshness now
                (removeDuplicates (x :: xs))) q)).length = _
          by_cases h : 1 < (addKeywordScore (addFreshness now (removeDuplicates (x :: xs))) q).length
          · rw [if_pos h, modelFinal_length, fillRerankDefault_length, rerankApply_length,
              fr_length]
          · rw [if_neg h, basicRank_length, fr_length]
      | predictFails =>
          show (if 1 < (addKeywordScore (addFreshness now (removeDuplicates (x :: xs))) q).length
              then modelFinal (fillRerankDefault
                (addKeywordScore (addFreshness now (removeDuplicates (x :: xs))) q))
              else basicRank (addKeywordScore (addFreshness now
                (removeDuplicates (x :: xs))) q)).length = _
          by_cases h : 1 < (addKeywordScore (addFreshness now (removeDuplicates (x :: xs))) q).length
          · rw [if_pos h, modelFinal_length, fillRerankDefault_length, fr_length]
          · rw [if_neg h, basicRank_length, fr_length]

end Reranker

/-! ### Lemmas about the keyword search -/

namespace Models

theorem secRows_mem {limit : Nat} {rows : List HRow} {acc : List KRes}
    {seen : List String} {x : KRes} (hx : x ∈ (secRows limit rows acc seen).1) :
    x ∈ acc ∨ x.url ∉ seen := by
  induction rows generalizing acc seen with
  | nil => exact Or.inl hx
  | cons r rs ih =>
      by_cases hr : r.url ∈ seen
      · rw [show secRows limit (r :: rs) acc seen = secRows limit rs acc seen by
          rw [secRows, if_pos (by simpa using hr)]] at hx
        exact ih hx
      · rw [show secRows limit (r :: rs) acc seen =
            (if limit ≤ (acc ++ [hToRes r]).length then (acc ++ [hToRes r], seen ++ [r.url])
             else secRows limit rs (acc ++ [hToRes r]) (seen ++ [r.url])) by
          rw [secRows, if_neg (by simpa using hr)]] at hx
        by_cases hstop : limit ≤ (acc ++ [hToRes r]).length
        · rw [if_pos hstop] at hx
          rcases List.mem_append.mp hx with hx2 | hx2
          · exact Or.inl hx2
          · rcases List.mem_singleton.mp hx2 with rfl
            exact Or.inr hr
        · rw [if_neg hstop] at hx
          rcases ih hx with hx2 | hx2
          · rcases List.mem_append.mp hx2 with hx3 | hx3
            · exact Or.inl hx3
            · rcases List.mem_singleton.mp hx3 with rfl
              exact Or.inr hr
          · exact Or.inr (fun hs => hx2 (List.mem_append_left _ hs))

theorem secRows_seen {limit : Nat} {rows : List HRow} {acc : List KRes}
    {seen : List String} {s : String} (hs : s ∈ seen) :
    s ∈ (secRows limit rows acc seen).2 := by
  induction rows generalizing acc seen with
  | nil => exact hs
  | cons r rs ih =>
      by_cases hr : r.url ∈ seen
      · rw [show secRows limit (r :: rs) acc seen = secRows limit rs acc seen by
          rw [secRows, if_pos (by simpa using hr)]]
        exact ih hs
      · rw [show secRows limit (r :: rs) acc seen =
            (if limit ≤ (acc ++ [hToRes r]).length then (acc ++ [hToRes r], seen ++ [r.url])
             else secRows limit rs (acc ++ [hToRes r]) (seen ++ [r.url])) by
          rw [secRows, if_neg (by simpa using hr)]]
        by_cases hstop : limit ≤ (acc ++ [hToRes r]).length
        · rw [if_pos hstop]
          exact List.mem_append_left _ hs
        · rw [if_neg hstop]
          exact ih (List.mem_append_left _ hs)

theorem secPatterns_mem {db : DB} {remaining limit : Nat} {ps : List String}
    {acc : List KRes} {seen : List String} {x : KRes}
    (hx : x ∈ secPatterns db remaining limit ps acc seen) :
    x ∈ acc ∨ x.url ∉ seen := by
  induction ps generalizing acc seen with
  | nil => exact Or.inl hx
  | cons p pats ih =>
      rw [secPatterns] at hx
      by_cases hstop : limit ≤
          (secRows limit (secondaryQuery db p remaining) acc seen).1.length
      · rw [if_pos hstop] at hx
        exact secRows_mem hx
      · rw [if_neg hstop] at hx
        rcases ih hx with hx2 | hx2
        · exact secRows_mem hx2
        · exact Or.inr (fun hs => hx2 (secRows_seen hs))

/-- Descending order by the timestamp string is total. -/
theorem lvtDesc_total {α : Type} (key : α → String) (a b : α) :
    lvtDesc key a b = true ∨ lvtDesc key b a = true := by
  unfold lvtDesc
  rcases strLe_total (key b) (key a) with h | h
  · exact Or.inl h
  · exact Or.inr h

/-- Descending order by the timestamp string is transitive. -/
theorem lvtDesc_trans {α : Type} (key : α → String) (a b c : α)
    (h1 : lvtDesc key a b = true) (h2 : lvtDesc key b c = true) :
    lvtDesc key a c = true := by
  unfold lvtDesc at h1 h2 ⊢
  exact strLe_trans h2 h1

end Models

/-! ### Concrete instances used by witnesses and counterexamples -/

/-- Chunk whose timestamp parses to the epoch (older than every cutoff of
the fixed clock below). -/
def chunkOld : Chunk := { last_visit_time := some (TimeVal.isoStr 0) }

/-- Fixed clock:1000000 seconds past the epoch. -/
def clkFixed : Clock := { secs := 1000000, dayStart := 950400, yearStart := 0 }

/-- Joined chunk row number n of the cold-start database, matching the
term python. -/
def jrowC2 (n : Nat) : Models.JRow :=
  { cid := n, content_id := 1, chunk_text := "python tips " ++ toString n,
    chunk_index := (n : Int), history_id := 1, url := "https://ex.com/" ++ toString n,
    title := "t", domain := "ex.com", last_visit_time := "2024-01-0" ++ toString n,
    visit_count := 1, lvtVal := TimeVal.isoStr 100 }

/-- Database with five chunk rows matching python and no history rows. -/
def dbC2 : Models.DB := { chunksJoined := [jrowC2 1, jrowC2 2, jrowC2 3, jrowC2 4, jrowC2 5], history := [] }

/-- Cold-start retriever state: neither the index nor the metadata store
was loaded, LangChain is unavailable, the cache is empty. -/
def envC2cold : Retriever.SearchEnv :=
  { index := none, metadata := none, lc := Retriever.LCState.absent, cache := none, db := dbC2 }

/-- Processed query whose single key term matches the five rows. -/
def qdC2 : Retriever.QueryData :=
  { original_query := "python tutorial", cleaned_query := "python tutorial",
    key_terms := ["python"], time_info := none }

/-- Joined chunk row whose text matches two different terms. -/
def jrowC6 : Models.JRow :=
  { cid := 1, content_id := 1, chunk_text := "apple banana", chunk_index := 0,
    history_id := 1, url := "u", title := "t", domain := "d",
    last_visit_time := "2024", visit_count := 1, lvtVal := TimeVal.isoStr 0 }

/-- Database with that single row and no history rows. -/
def dbC6 : Models.DB := { chunksJoined := [jrowC6], history := [] }

/-- A history row as returned by get_recent_history: id and url only. -/
def rowC8 : ContextB.Row := [ContextB.Cell.i 7, ContextB.Cell.s "https://e.com/p"]

/-- Context-builder environment whose query processor raises and whose
history model holds one recent row. -/
def envC8 : ContextB.CBEnv :=
  { processQuery := fun _ => Except.error "processor failure",
    retrieverSearch := fun _ _ => Except.ok [],
    recentHistory := fun _ => Except.ok [rowC8],
    domainHistory := fun _ _ => Except.ok [] }

/-- The emergency chunk built from that row. -/
def chunkC8 : Chunk := ContextB.rowToEmergencyChunk rowC8

/-- Candidate list spread across ten distinct domains, two of them with a
second chunk. -/
def chunksC7 : List Chunk :=
  [ { domain := some "d0" }, { domain := some "d1" }, { domain := some "d2" },
    { domain := some "d3" }, { domain := some "d4" }, { domain := some "d5" },
    { domain := some "d6" }, { domain := some "d7" }, { domain := some "d8" },
    { domain := some "d9" }, { domain := some "d0", history_id := some 1 },
    { domain := some "d1", history_id := some 1 } ]

/-! ## Claim C10: numeric days-ago extraction and its priority

The claim as frozen quantifies over every query containing an in-range
numeric days-ago occurrence.  The code, however, inspects only the
leftmost occurrence: when that one is out of range it falls through to the
phrase patterns, even if a later in-range occurrence exists. -/

/-- Claim C10, counterexample.  The query
500 days ago yesterday 3 days ago contains the numeric pattern 3 days ago
with value 3 in 1..365 (it matches at offset 23), yet extraction returns
the yesterday phrase interpretation, not days_ago 3: the leftmost numeric
match has value 500, which is out of range, and the code then consults
the phrase table. -/
theorem C10_counterexample :
    matchDaysAgoAt ((lowerL ("500 days ago yesterday 3 days ago").toList).drop 23) = some 3 ∧
      (1 ≤ 3 ∧ 3 ≤ 365) ∧
      extractTimeReferences "500 days ago yesterday 3 days ago" = some TimeInfo.yesterday ∧
      some TimeInfo.yesterday ≠ some (TimeInfo.days_ago (some 3)) := by
  refine ⟨by decide, by decide, by decide, by decide⟩

/-- Claim C10, amended: whenever the leftmost match of the numeric
days-ago pattern in the lowercased query has value N with 1 <= N <= 365,
extraction returns exactly the days_ago N interpretation, taking priority
over every phrase and implicit pattern also present; the function returns
at most one interpretation by construction. -/
theorem C10_days_ago_priority (q : String) (n : Nat)
    (h : searchDaysAgo (lowerL q.toList) = some n) (h1 : 1 ≤ n) (h365 : n ≤ 365) :
    extractTimeReferences q = some (TimeInfo.days_ago (some (n : Int))) := by
  simp only [extractTimeReferences]
  rw [h]
  simp [h1, h365]

/-- Claim C10, witness: the query
what did i see 3 days ago recently also matches the recently phrase
pattern and an implicit pattern, yet yields days_ago 3. -/
theorem C10_days_ago_priority_witness :
    extractTimeReferences "what did i see 3 days ago recently" =
      some (TimeInfo.days_ago (some 3)) :=
  C10_days_ago_priority "what did i see 3 days ago recently" 3 (by decide) (by decide)
    (by decide)

/-! ## Claim C4: fusion merge by identity key

Confirmed.  The guards of _merge_results keep merge keys pairwise
distinct in the output, a key hit from both sides is updated in place and
tagged hybrid with both scores, and a one-sided key carries a zero
placeholder for the missing side. -/

/-- Claim C4: for input lists without internal key duplicates, a record
whose url-chunk_id key appears in both lists yields exactly one merged
item for that key, tagged hybrid and carrying the vector score of the
vector-side record and the keyword score of the keyword-side record; a
key present on one side only gets the missing score defaulted to 0. -/
theorem C4_merge_by_key (vrs krs : List Chunk)
    (hnv : (vrs.map Retriever.mergeKey).Nodup)
    (hnk : (krs.map Retriever.mergeKey).Nodup) :
    (∀ v ∈ vrs, ∀ k ∈ krs, Retriever.mergeKey v = Retriever.mergeKey k →
      (Retriever.mergeResults vrs krs).countP
          (fun m => decide (Retriever.mergeKey m = Retriever.mergeKey v)) = 1 ∧
        { v with
            vector_score := some (v.score.getD 1)
            keyword_score := some (k.score.getD 1)
            search_type := some "hybrid" } ∈ Retriever.mergeResults vrs krs) ∧
    (∀ v ∈ vrs, Retriever.mergeKey v ∉ krs.map Retriever.mergeKey →
      { v with vector_score := some (v.score.getD 1), keyword_score := some 0 } ∈
        Retriever.mergeResults vrs krs) ∧
    (∀ k ∈ krs, Retriever.mergeKey k ∉ vrs.map Retriever.mergeKey →
      { k with vector_score := some 0, keyword_score := some (k.score.getD 1) } ∈
        Retriever.mergeResults vrs krs) := by
  have hbase0 : (([] : List Chunk).map Retriever.mergeKey).Nodup := by simp
  have hmn : ((Retriever.mergeResults vrs krs).map Retriever.mergeKey).Nodup :=
    Retriever.nodup_foldl_addKeyword (Retriever.nodup_foldl_addVector hbase0)
  refine ⟨?_, ?_, ?_⟩
  · intro v hv k hk he
    have hmkv : Retriever.mkVec v ∈ vrs.foldl Retriever.addVector [] :=
      Retriever.mem_foldl_addVector_new hnv hv (by simp)
    have hekey : Retriever.mergeKey (Retriever.mkVec v) = Retriever.mergeKey k := by
      rw [Retriever.mergeKey_mkVec]; exact he
    have hupd : Retriever.updHyb (k.score.getD 1) (Retriever.mkVec v) ∈
        Retriever.mergeResults vrs krs :=
      Retriever.mem_foldl_addKeyword_update hnk hmkv hk hekey
    have heq : Retriever.updHyb (k.score.getD 1) (Retriever.mkVec v) =
        { v with
            vector_score := some (v.score.getD 1)
            keyword_score := some (k.score.getD 1)
            search_type := some "hybrid" } := rfl
    refine ⟨?_, heq ▸ hupd⟩
    exact countP_key_eq_one hmn hupd (by simp)
  · intro v hv hno
    have hmkv : Retriever.mkVec v ∈ vrs.foldl Retriever.addVector [] :=
      Retriever.mem_foldl_addVector_new hnv hv (by simp)
    have hout : Retriever.mkVec v ∈ Retriever.mergeResults vrs krs :=
      Retriever.mem_foldl_addKeyword_notin hmkv (by
        rw [Retriever.mergeKey_mkVec]; exact hno)
    exact hout
  · intro k hk hno
    have hnobase : Retriever.mergeKey k ∉
        (vrs.foldl Retriever.addVector []).map Retriever.mergeKey := by
      rw [Retriever.key_mem_foldl_addVector]
      rintro (h | h)
      · simp at h
      · exact hno h
    exact Retriever.mem_foldl_addKeyword_new hnk hk hnobase

/-- Claim C4, witness: the vector list and the keyword list share the key
of url u and chunk 1; the second keyword record has a fresh key. -/
theorem C4_merge_by_key_witness :
    (∀ v ∈ ([{ url := some "u", chunk_id := some 1, score := some 3 }] : List Chunk),
      ∀ k ∈ ([{ url := some "u", chunk_id := some 1, score := some 1 },
              { url := some "w", chunk_id := some 2 }] : List Chunk),
      Retriever.mergeKey v = Retriever.mergeKey k →
      (Retriever.mergeResults [{ url := some "u", chunk_id := some 1, score := some 3 }]
            [{ url := some "u", chunk_id := some 1, score := some 1 },
             { url := some "w", chunk_id := some 2 }]).countP
          (fun m => decide (Retriever.mergeKey m = Retriever.mergeKey v)) = 1 ∧
        { v with
            vector_score := some (v.score.getD 1)
            keyword_score := some (k.score.getD 1)
            search_type := some "hybrid" } ∈
          Retriever.mergeResults [{ url := some "u", chunk_id := some 1, score := some 3 }]
            [{ url := some "u", chunk_id := some 1, score := some 1 },
             { url := some "w", chunk_id := some 2 }]) ∧
    (∀ v ∈ ([{ url := some "u", chunk_id := some 1, score := some 3 }] : List Chunk),
      Retriever.mergeKey v ∉
        ([{ url := some "u", chunk_id := some 1, score := some 1 },
           { url := some "w", chunk_id := some 2 }] : List Chunk).map Retriever.mergeKey →
      { v with vector_score := some (v.score.getD 1), keyword_score := some 0 } ∈
        Retriever.mergeResults [{ url := some "u", chunk_id := some 1, score := some 3 }]
          [{ url := some "u", chunk_id := some 1, score := some 1 },
           { url := some "w", chunk_id := some 2 }]) ∧
    (∀ k ∈ ([{ url := some "u", chunk_id := some 1, score := some 1 },
             { url := some "w", chunk_id := some 2 }] : List Chunk),
      Retriever.mergeKey k ∉
        ([{ url := some "u", chunk_id := some 1, score := some 3 }] : List Chunk).map
          Retriever.mergeKey →
      { k with vector_score := some 0, keyword_score := some (k.score.getD 1) } ∈
        Retriever.mergeResults [{ url := some "u", chunk_id := some 1, score := some 3 }]
          [{ url := some "u", chunk_id := some 1, score := some 1 },
           { url := some "w", chunk_id := some 2 }]) :=
  C4_merge_by_key [{ url := some "u", chunk_id := some 1, score := some 3 }]
    [{ url := some "u", chunk_id := some 1, score := some 1 },
     { url := some "w", chunk_id := some 2 }] (by decide) (by decide)

/-! ## Claim C7: per-domain cap of the diversity pass

Confirmed.  With candidates spread across at least ten distinct domains,
the seeding pass already fills at least top_k slots with one chunk per
domain, the filling pass honours the cap max(1, top_k // 5), and the
uncapped backfill pass is never entered. -/

/-- Claim C7: for top_k = 10 and a candidate list spread across at least
ten distinct domains, no domain contributes more than max(1, 10 // 5) = 2
items to the diversified output; at the boundary top_k = 5 the cap is
max(1, 5 // 5) = 1. -/
theorem C7_diversity_cap (results : List Chunk)
    (hdom : 10 ≤ (ContextB.firstKeys (results.map ContextB.chDomain)).length) :
    (∀ d, (ContextB.ensureDiversity results 10).countP
        (fun r => decide (ContextB.chDomain r = d)) ≤ 2) ∧
      (∀ d, (ContextB.ensureDiversity results 5).countP
        (fun r => decide (ContextB.chDomain r = d)) ≤ 1) := by
  constructor
  · intro d
    have h := ContextB.ensureDiversity_cap results 10 (by norm_num) hdom d
    have hm : max 1 (10 / 5) = 2 := by decide
    rw [hm] at h
    exact h
  · intro d
    have h := ContextB.ensureDiversity_cap results 5 (by norm_num)
      (le_trans (by norm_num) hdom) d
    have hm : max 1 (5 / 5) = 1 := by decide
    rw [hm] at h
    exact h

/-- Claim C7, witness: twelve candidates across ten domains. -/
theorem C7_diversity_cap_witness :
    (∀ d, (ContextB.ensureDiversity chunksC7 10).countP
        (fun r => decide (ContextB.chDomain r = d)) ≤ 2) ∧
      (∀ d, (ContextB.ensureDiversity chunksC7 5).countP
        (fun r => decide (ContextB.chDomain r = d)) ≤ 1) :=
  C7_diversity_cap chunksC7 (by decide)

/-! ## Claim C6: tiers, ordering and duplicates of the keyword search

The ordering, the gating of the secondary tier, and its url-skip hold; the
size bound and the duplicate suppression do not: the primary tier runs one
LIMIT-k query per term and concatenates the row lists with no
deduplication and no overall truncation, so one chunk matching several
terms appears once per term and the total can exceed k. -/

/-- Claim C6, counterexample: one stored chunk matching both search terms,
limit 1.  The result has two entries, both with the same url and
chunk_index identity, although the claim allows at most one result and at
most one entry per identity. -/
theorem C6_counterexample :
    (Models.searchByKeywords dbC6 ["apple", "banana"] 1).length = 2 ∧
      (Models.searchByKeywords dbC6 ["apple", "banana"] 1).countP
        (fun r => decide (r.url = "u" ∧ r.chunk_index = 0)) = 2 ∧
      ¬ ((Models.searchByKeywords dbC6 ["apple", "banana"] 1).length ≤ 1) :=
  ⟨by decide, by decide, by decide⟩

/-- Claim C6, amended: the result list is sorted by last_visit_time
descending; when the primary tier already yields at least k results the
secondary tier is not consulted (the result is exactly the sorted primary
concatenation); and every result either comes from the primary tier or
carries a url that no primary result has — the secondary tier skips urls
already present.  The primary tier itself concatenates one per-term query
without deduplication, so a chunk matching several terms appears once per
matching term and the total may exceed k. -/
theorem C6_keyword_search_tiers (db : Models.DB) (patterns : List String) (limit : Nat) :
    ((Models.searchByKeywords db patterns limit).Pairwise
      (fun a b => Models.lvtDesc Models.KRes.last_visit_time a b = true)) ∧
      (limit ≤ (patterns.foldl
          (fun acc p => acc ++ (Models.primaryQuery db p limit).map Models.jToRes)
          []).length →
        Models.searchByKeywords db patterns limit =
          sortD (Models.lvtDesc Models.KRes.last_visit_time)
            (patterns.foldl
              (fun acc p => acc ++ (Models.primaryQuery db p limit).map Models.jToRes)
              [])) ∧
      (∀ r ∈ Models.searchByKeywords db patterns limit,
        r ∈ patterns.foldl
            (fun acc p => acc ++ (Models.primaryQuery db p limit).map Models.jToRes) [] ∨
          r.url ∉ (patterns.foldl
            (fun acc p => acc ++ (Models.primaryQuery db p limit).map Models.jToRes)
            []).map (fun x => x.url)) := by
  by_cases hp : patterns = []
  · subst hp
    refine ⟨by simp [Models.searchByKeywords], ?_, ?_⟩
    · intro _
      simp [Models.searchByKeywords, sortD]
    · intro r hr
      simp [Models.searchByKeywords] at hr
  · have hout : Models.searchByKeywords db patterns limit =
        sortD (Models.lvtDesc Models.KRes.last_visit_time)
          (if (patterns.foldl
              (fun acc p => acc ++ (Models.primaryQuery db p limit).map Models.jToRes)
              []).length < limit then
            Models.secPatterns db
              (limit - (patterns.foldl
                (fun acc p => acc ++ (Models.primaryQuery db p limit).map Models.jToRes)
                []).length) limit patterns
              (patterns.foldl
                (fun acc p => acc ++ (Models.primaryQuery db p limit).map Models.jToRes) [])
              ((patterns.foldl
                (fun acc p => acc ++ (Models.primaryQuery db p limit).map Models.jToRes)
                []).map (fun r => r.url))
          else patterns.foldl
            (fun acc p => acc ++ (Models.primaryQuery db p limit).map Models.jToRes) []) := by
      unfold Models.searchByKeywords
      rw [if_neg hp]
    refine ⟨?_, ?_, ?_⟩
    · rw [hout]
      exact sortD_pairwise (Models.lvtDesc_total Models.KRes.last_visit_time)
        (Models.lvtDesc_trans Models.KRes.last_visit_time) _
    · intro hlen
      rw [hout, if_neg (by omega)]
    · intro r hr
      rw [hout] at hr
      have hr2 := mem_sortD.mp hr
      by_cases hless : (patterns.foldl
          (fun acc p => acc ++ (Models.primaryQuery db p limit).map Models.jToRes)
          []).length < limit
      · rw [if_pos hless] at hr2
        rcases Models.secPatterns_mem hr2 with h | h
        · exact Or.inl h
        · refine Or.inr (fun hmem => h ?_)
          rcases List.mem_map.mp hmem with ⟨x, hx, hxe⟩
          exact hxe ▸ List.mem_map_of_mem _ hx
      · rw [if_neg hless] at hr2
        exact Or.inl hr2

/-! ## Claim C9: the two fused-score formulas of the reranker

Confirmed.  Without the model (disabled, unavailable, or at most one
candidate after deduplication) every output item carries
0.5 * keyword_score + 0.5 * freshness_score; with the model every output
item carries 0.5 * rerank_score + 0.3 * keyword_score +
0.2 * freshness_score; the output size is the size of the deduplicated
candidate set in every mode. -/

/-- Claim C9: fused-score formulas of filter_and_rerank, and invariance of
the candidate-set size across modes.  The scores on the right-hand sides
are the fields of the output item itself, which the scoring passes wrote
before fusing. -/
theorem C9_reranker_formulas (f : String → String → ℚ) (now : Int)
    (results : List Chunk) (q : String) :
    (∀ c ∈ Reranker.filterAndRerank Reranker.ModelState.noModel now results q,
      c.final_score = some (c.keyword_score.getD 0 * (1 / 2) +
        c.freshness_score.getD 0 * (1 / 2))) ∧
      (1 < (Reranker.removeDuplicates results).length →
        ∀ c ∈ Reranker.filterAndRerank (Reranker.ModelState.predicts f) now results q,
          c.final_score = some (c.rerank_score.getD (1 / 2) * (1 / 2) +
            c.keyword_score.getD 0 * (3 / 10) + c.freshness_score.getD 0 * (1 / 5))) ∧
      ((Reranker.removeDuplicates results).length ≤ 1 →
        ∀ c ∈ Reranker.filterAndRerank (Reranker.ModelState.predicts f) now results q,
          c.final_score = some (c.keyword_score.getD 0 * (1 / 2) +
            c.freshness_score.getD 0 * (1 / 2))) ∧
      (∀ ms : Reranker.ModelState, (Reranker.filterAndRerank ms now results q).length =
        (Reranker.removeDuplicates results).length) := by
  refine ⟨?_, ?_, ?_, fun ms => Reranker.filterAndRerank_length ms now results q⟩
  · intro c hc
    cases results with
    | nil => cases hc
    | cons x xs => exact Reranker.basicRank_final hc
  · intro hlen c hc
    cases results with
    | nil => cases hc
    | cons x xs =>
        have hlen2 : 1 < (Reranker.addKeywordScore
            (Reranker.addFreshness now (Reranker.removeDuplicates (x :: xs))) q).length := by
          rw [Reranker.fr_length]
          exact hlen
        have hstep : Reranker.filterAndRerank (Reranker.ModelState.predicts f) now
            (x :: xs) q = Reranker.modelFinal (Reranker.fillRerankDefault
              (Reranker.rerankApply f q (Reranker.addKeywordScore
                (Reranker.addFreshness now (Reranker.removeDuplicates (x :: xs))) q))) := by
          show (if 1 < (Reranker.addKeywordScore (Reranker.addFreshness now
              (Reranker.removeDuplicates (x :: xs))) q).length then _ else _) = _
          rw [if_pos hlen2]
        rw [hstep] at hc
        exact Reranker.modelFinal_final hc
  · intro hlen c hc
    cases results with
    | nil => cases hc
    | cons x xs =>
        have hlen2 : ¬ 1 < (Reranker.addKeywordScore
            (Reranker.addFreshness now (Reranker.removeDuplicates (x :: xs))) q).length := by
          rw [Reranker.fr_length]
          omega
        have hstep : Reranker.filterAndRerank (Reranker.ModelState.predicts f) now
            (x :: xs) q = Reranker.basicRank (Reranker.addKeywordScore
              (Reranker.addFreshness now (Reranker.removeDuplicates (x :: xs))) q) := by
          show (if 1 < (Reranker.addKeywordScore (Reranker.addFreshness now
              (Reranker.removeDuplicates (x :: xs))) q).length then _ else _) = _
          rw [if_neg hlen2]
        rw [hstep] at hc
        exact Reranker.basicRank_final hc

/-! ## Claim C2: cold start must degrade to keyword results

The spec requires the vector adapter to treat an unavailable index as the
valid empty state.  The commented-out legacy search method guarded
self.index against None, but the active rewrite dropped the guard:
_vector_search dereferences self.index unconditionally, so a cold start
raises AttributeError out of HistoryRetriever.search instead of returning
the keyword results. -/

/-- Claim C2, behaviour of the code at the failing input: with neither the
index nor the metadata store loaded and a keyword adapter that finds five
matches (all tagged keyword), HistoryRetriever.search raises instead of
returning the non-empty keyword-only ranking the claim requires. -/
theorem C2_cold_start_raises :
    Retriever.search envC2cold clkFixed qdC2 10 =
        Except.error "AttributeError: NoneType object has no attribute search" ∧
      (Retriever.keywordSearch envC2cold.db qdC2.key_terms 20).length = 5 ∧
      (∀ c ∈ Retriever.keywordSearch envC2cold.db qdC2.key_terms 20,
        c.search_type = some "keyword") :=
  ⟨rfl, by decide, by decide⟩

/-! ## Claim C3: the time filter's minimum-size guarantee

The backfill guarantee holds as stated; the added gloss that the filter
never returns an empty list for a non-empty input fails for singleton
inputs, where the bound min(3, 1//2) is 0 and no backfill is triggered. -/

/-- Claim C3, counterexample to the never-empty gloss: a single result
older than the cutoff is filtered to the empty list — the backfill
condition min(3, len//2) = 0 is vacuously satisfied by the one excluded
item, yet the output is empty for a non-empty input. -/
theorem C3_counterexample :
    Retriever.filterByTime clkFixed [chunkOld] (TimeInfo.days_ago (some 1)) = [] ∧
      ([chunkOld] : List Chunk) ≠ [] ∧
      min 3 (([chunkOld] : List Chunk).length / 2) ≤
        (([chunkOld] : List Chunk).filter (fun r =>
          decide (r ∉ ([chunkOld] : List Chunk).filter (fun r2 =>
            Retriever.includeItem clkFixed (clkFixed.secs - 1 * 86400) r2)))).length :=
  ⟨by decide, by decide, by decide⟩

/-- Claim C3, amended: for every clock, every time_info (each yields a
defined cutoff) and every result list, whenever at least
min(3, len(results)//2) excluded items exist, the filter returns at least
min(3, len(results)//2) items; in particular the output is non-empty for
inputs of length at least 2 under that condition, while a singleton input
older than the cutoff yields the empty list. -/
theorem C3_time_filter_min_size (clk : Clock) (ti : TimeInfo) (results : List Chunk)
    (cutoff : Int) (hc : Retriever.getTimeCutoff clk ti = some cutoff)
    (hcand : min 3 (results.length / 2) ≤
      (results.filter (fun r =>
        decide (r ∉ results.filter (fun r2 => Retriever.includeItem clk cutoff r2)))).length) :
    min 3 (results.length / 2) ≤ (Retriever.filterByTime clk results ti).length := by
  simp only [Retriever.filterByTime, hc]
  split
  · rw [List.length_append, List.length_take]
    omega
  · omega

/-- Claim C3, witness: four results, all older than the one-day cutoff, so
the filter drops all of them and backfills min(5, 2) = 2, meeting the
bound min(3, 2) = 2. -/
theorem C3_time_filter_min_size_witness :
    min 3 (([chunkOld, chunkOld, chunkOld, chunkOld] : List Chunk).length / 2) ≤
      (Retriever.filterByTime clkFixed [chunkOld, chunkOld, chunkOld, chunkOld]
        (TimeInfo.days_ago (some 1))).length :=
  C3_time_filter_min_size clkFixed (TimeInfo.days_ago (some 1))
    [chunkOld, chunkOld, chunkOld, chunkOld] (clkFixed.secs - 1 * 86400) (by decide)
    (by decide)

/-! ## Claim C5: similarity conversion and the combined-score formula

The formula of the claim holds for strictly positive distances, but the
code distinguishes a present vector score only through the test
vector_score > 0: an exact match at distance 0 is conflated with the
keyword-only placeholder and contributes similarity 0, not the 1 the claim
derives from 1/(1+0). -/

/-- Claim C5, counterexample: a merged result with an exact vector match
(distance 0) receives combined score 0, while the claimed formula
0.6 * (1 / (1 + 0)) gives 3/5. -/
theorem C5_counterexample :
    Retriever.rankResults 0 [{ vector_score := some 0 }] =
        [{ vector_score := some 0, combined_score := some 0 }] ∧
      (1 : ℚ) / (1 + 0) * (3 / 5) + 0 * (3 / 10) + 0 = 3 / 5 ∧
      (0 : ℚ) ≠ 3 / 5 := by
  refine ⟨?_, by norm_num, by norm_num⟩
  simp [Retriever.rankResults, Retriever.rankScore, Retriever.vectorSim,
    Retriever.timeBoost, sortD, insOrd]

/-- Claim C5, amended: every ranked item carries combined score
0.6 * similarity + 0.3 * keyword_score + time_boost where similarity is
1/(1+d) for a strictly positive distance d — strictly between 0 and 1,
and strictly increasing as the distance decreases — while a zero distance
is treated like an absent vector score and contributes 0 (not 1); the
time boost is max(0, 0.5 - 0.05 * age_days) and vanishes when the
timestamp is absent or not fromisoformat-parseable. -/
theorem C5_rank_formula (now : Int) (results : List Chunk) (c : Chunk)
    (hc : c ∈ results) :
    { c with combined_score := some (Retriever.rankScore now c) } ∈
        Retriever.rankResults now results ∧
      (∀ d : ℚ, c.vector_score = some d → 0 < d →
        Retriever.rankScore now c =
          1 / (1 + d) * (3 / 5) + c.keyword_score.getD 0 * (3 / 10) +
            Retriever.timeBoost now c ∧
        0 < 1 / (1 + d) ∧ 1 / (1 + d) < 1) ∧
      (∀ d1 d2 : ℚ, 0 < d1 → d1 < d2 → 1 / (1 + d2) < 1 / (1 + d1)) ∧
      (c.vector_score = some 0 ∨ c.vector_score = none →
        Retriever.rankScore now c =
          c.keyword_score.getD 0 * (3 / 10) + Retriever.timeBoost now c) ∧
      (c.last_visit_time = none → Retriever.timeBoost now c = 0) ∧
      (c.last_visit_time = some TimeVal.badStr ∨ c.last_visit_time = some TimeVal.nonStr ∨
          (∀ t : Int, c.last_visit_time = some (TimeVal.fmtStr t)) →
        Retriever.timeBoost now c = 0) := by
  refine ⟨?_, ?_, ?_, ?_, ?_, ?_⟩
  · cases results with
    | nil => cases hc
    | cons x xs =>
        simp only [Retriever.rankResults]
        exact mem_sortD.mpr (List.mem_map_of_mem _ hc)
  · intro d hd hpos
    have h1 : (0 : ℚ) < 1 + d := by linarith
    refine ⟨?_, by positivity, ?_⟩
    · simp [Retriever.rankScore, Retriever.vectorSim, hd, hpos]
    · rw [div_lt_one h1]; linarith
  · intro d1 d2 h1 h2
    have ha : (0 : ℚ) < 1 + d1 := by linarith
    have hb : (0 : ℚ) < 1 + d2 := by linarith
    apply div_lt_div_of_pos_left one_pos ha
    linarith
  · intro h
    rcases h with h | h <;>
      simp [Retriever.rankScore, Retriever.vectorSim, h]
  · intro h
    simp [Retriever.timeBoost, h]
  · intro h
    rcases h with h | h | h
    · simp [Retriever.timeBoost, h]
    · simp [Retriever.timeBoost, h]
    · simp [Retriever.timeBoost, h 0]

/-- Claim C5, witness: a hybrid result at distance 1 with keyword score 1
and a timestamp no parser accepts. -/
theorem C5_rank_formula_witness :
    { vector_score := some 1, keyword_score := some 1,
        last_visit_time := some TimeVal.badStr,
        combined_score := some (Retriever.rankScore 0
          { vector_score := some 1, keyword_score := some 1,
            last_visit_time := some TimeVal.badStr }) : Chunk } ∈
        Retriever.rankResults 0
          [{ vector_score := some 1, keyword_score := some 1,
             last_visit_time := some TimeVal.badStr }] ∧
      (∀ d : ℚ,
        ({ vector_score := some 1, keyword_score := some 1,
           last_visit_time := some TimeVal.badStr : Chunk }).vector_score = some d →
        0 < d →
        Retriever.rankScore 0
            { vector_score := some 1, keyword_score := some 1,
              last_visit_time := some TimeVal.badStr } =
          1 / (1 + d) * (3 / 5) +
            ({ vector_score := some 1, keyword_score := some 1,
               last_visit_time := some TimeVal.badStr : Chunk }).keyword_score.getD 0 *
              (3 / 10) +
            Retriever.timeBoost 0
              { vector_score := some 1, keyword_score := some 1,
                last_visit_time := some TimeVal.badStr } ∧
        0 < 1 / (1 + d) ∧ 1 / (1 + d) < 1) ∧
      (∀ d1 d2 : ℚ, 0 < d1 → d1 < d2 → 1 / (1 + d2) < 1 / (1 + d1)) ∧
      (({ vector_score := some 1, keyword_score := some 1,
          last_visit_time := some TimeVal.badStr : Chunk }).vector_score = some 0 ∨
        ({ vector_score := some 1, keyword_score := some 1,
           last_visit_time := some TimeVal.badStr : Chunk }).vector_score = none →
        Retriever.rankScore 0
            { vector_score := some 1, keyword_score := some 1,
              last_visit_time := some TimeVal.badStr } =
          ({ vector_score := some 1, keyword_score := some 1,
             last_visit_time := some TimeVal.badStr : Chunk }).keyword_score.getD 0 *
              (3 / 10) +
            Retriever.timeBoost 0
              { vector_score := some 1, keyword_score := some 1,
                last_visit_time := some TimeVal.badStr }) ∧
      (({ vector_score := some 1, keyword_score := some 1,
          last_visit_time := some TimeVal.badStr : Chunk }).last_visit_time = none →
        Retriever.timeBoost 0
            { vector_score := some 1, keyword_score := some 1,
              last_visit_time := some TimeVal.badStr } = 0) ∧
      (({ vector_score := some 1, keyword_score := some 1,
          last_visit_time := some TimeVal.badStr : Chunk }).last_visit_time =
            some TimeVal.badStr ∨
          ({ vector_score := some 1, keyword_score := some 1,
             last_visit_time := some TimeVal.badStr : Chunk }).last_visit_time =
            some TimeVal.nonStr ∨
          (∀ t : Int,
            ({ vector_score := some 1, keyword_score := some 1,
               last_visit_time := some TimeVal.badStr : Chunk }).last_visit_time =
              some (TimeVal.fmtStr t)) →
        Retriever.timeBoost 0
            { vector_score := some 1, keyword_score := some 1,
              last_visit_time := some TimeVal.badStr } = 0) :=
  C5_rank_formula 0
    [{ vector_score := some 1, keyword_score := some 1,
       last_visit_time := some TimeVal.badStr }]
    { vector_score := some 1, keyword_score := some 1,
      last_visit_time := some TimeVal.badStr }
    (List.mem_singleton.mpr rfl)

/-! ## Claim C1: the boundary handler of build_context

Confirmed: the whole body of build_context runs inside one handler whose
arm returns the emergency chunks, so a raise in states 1 to 4 never
reaches the caller; the emergency tier catches its own failures (returning
the empty list) and builds each chunk slot by slot with defaults, with the
source type emergency_fallback. -/

/-- Claim C1: build_context always returns a list — the value of its body
when no stage raises, and the emergency context when one does; the
emergency context swallows a failing history lookup, and every emergency
chunk carries url, title, domain, chunk_text, and the emergency_fallback
source type. -/
theorem C1_boundary_fallback (env : ContextB.CBEnv) (clk : Clock) (query : String)
    (topk : Nat) :
    ((∃ l, ContextB.buildContextBody env clk query topk = Except.ok l ∧
        ContextB.buildContext env clk query topk = l) ∨
      ((∃ e, ContextB.buildContextBody env clk query topk = Except.error e) ∧
        ContextB.buildContext env clk query topk = ContextB.emergencyContext env topk)) ∧
      (∀ e, env.recentHistory topk = Except.error e →
        ContextB.emergencyContext env topk = []) ∧
      (∀ c ∈ ContextB.emergencyContext env topk,
        c.url.isSome = true ∧ c.title.isSome = true ∧ c.domain.isSome = true ∧
          c.chunk_text.isSome = true ∧ c.source_type = some "emergency_fallback") := by
  refine ⟨?_, ?_, ?_⟩
  · cases hbody : ContextB.buildContextBody env clk query topk with
    | error e =>
        refine Or.inr ⟨⟨e, rfl⟩, ?_⟩
        unfold ContextB.buildContext
        rw [hbody]
    | ok l =>
        refine Or.inl ⟨l, rfl, ?_⟩
        unfold ContextB.buildContext
        rw [hbody]
  · intro e he
    unfold ContextB.emergencyContext
    rw [he]
  · intro c hc
    have hf := ContextB.emergencyContext_fields hc
    exact ⟨hf.1, hf.2.1, hf.2.2.1, hf.2.2.2.1, hf.2.2.2.2.1⟩

/-! ## Claim C8: the field contract of the returned chunks

The url, title, domain, chunk_text and source_type keys hold on every
path, but relevance_notes does not: the emergency chunks, and the raw
fallback chunks appended by the sparse-result merge of step 6, are never
run through _add_context_metadata, so they lack the relevance_notes
key. -/

/-- Claim C8, counterexample: a failing query processor routes the call to
the emergency tier, and the single returned chunk has no relevance_notes
key (while carrying the five other keys). -/
theorem C8_counterexample :
    ContextB.buildContext envC8 clkFixed "query" 5 = [chunkC8] ∧
      chunkC8.relevance_notes = none ∧ chunkC8.url.isSome = true ∧
      chunkC8.title.isSome = true ∧ chunkC8.domain.isSome = true ∧
      chunkC8.chunk_text.isSome = true ∧
      chunkC8.source_type = some "emergency_fallback" :=
  ⟨rfl, rfl, rfl, rfl, rfl, rfl, rfl⟩

/-- Claim C8, amended: every chunk returned by build_context carries a
source_type, and either carries relevance_notes (the paths annotated by
_add_context_metadata) or carries none and instead exposes url, title,
domain and chunk_text (the raw fallback chunks merged in step 6, and the
emergency chunks). -/
theorem C8_context_fields (env : ContextB.CBEnv) (clk : Clock) (query : String) (topk : Nat)
    (c : Chunk) (hc : c ∈ ContextB.buildContext env clk query topk) :
    c.source_type.isSome = true ∧
      (c.relevance_notes.isSome = true ∨
        (c.relevance_notes = none ∧ c.url.isSome = true ∧ c.title.isSome = true ∧
          c.domain.isSome = true ∧ c.chunk_text.isSome = true)) := by
  unfold ContextB.buildContext at hc
  revert hc
  cases hbody : ContextB.buildContextBody env clk query topk with
  | error e =>
      intro hc
      have hf := ContextB.emergencyContext_fields hc
      refine ⟨?_, Or.inr ⟨hf.2.2.2.2.2, hf.1, hf.2.1, hf.2.2.1, hf.2.2.2.1⟩⟩
      rw [hf.2.2.2.2.1]
      rfl
  | ok l =>
      intro hc
      rcases ContextB.buildContextBody_mem hbody hc with h | ⟨ti, fb, hfb, hcfb⟩
      · exact ⟨h.2, Or.inl h.1⟩
      · have hf := ContextB.fallbackContext_fields hfb hcfb
        exact ⟨hf.2.2.2.2.1, Or.inr ⟨hf.2.2.2.2.2, hf.1, hf.2.1, hf.2.2.1, hf.2.2.2.1⟩⟩

/-- Claim C8, witness: the amended theorem applied to the emergency chunk
of the counterexample environment. -/
theorem C8_context_fields_witness :
    chunkC8.source_type.isSome = true ∧
      (chunkC8.relevance_notes.isSome = true ∨
        (chunkC8.relevance_notes = none ∧ chunkC8.url.isSome = true ∧
          chunkC8.title.isSome = true ∧ chunkC8.domain.isSome = true ∧
          chunkC8.chunk_text.isSome = true)) :=
  C8_context_fields envC8 clkFixed "query" 5 chunkC8 (List.mem_singleton.mpr rfl)

end BrowserHist
